import Mathlib

/-!
Verification of the CryptoString cipher engine and key vault.

A shallow embedding of `src/utils/encryption.ts` (class `CryptoString`) and
`src/utils/keyStorage.ts` (class `KeyStorage`).

JavaScript strings are modelled as lists of UTF-16 code units (`List Nat`,
each element `< 65536`); `String.fromCharCode` truncation is modelled by
`% 65536` where the source applies it.  The host primitives `btoa`/`atob`
(binary-to-base64 and forgiving base64-to-binary), `encodeURIComponent` /
`unescape` / `escape` / `decodeURIComponent` (whose compositions in the
source amount to UTF-8 encoding and strict UTF-8 decoding), `JSON.parse`
and `JSON.stringify` are modelled executably below.  Randomness
(`crypto.getRandomValues`) is modelled by an explicit byte oracle
`Nat → Nat` (reduced `% 256` to a byte, as a `Uint8Array` cell stores it),
`Date.now()` by an explicit `now` argument, and `localStorage` by explicit
state passing of the stored payload.  Thrown exceptions are modelled by
`Option`/`Except` results.
-/

namespace JSem

/-- UTF-16 code units of a scalar value (a surrogate pair above the BMP). -/
def codeUnits (c : Nat) : List Nat :=
  if c < 65536 then [c]
  else [55296 + (c - 65536) / 1024, 56320 + (c - 65536) % 1024]

/-- UTF-16 code units of a Lean string literal: used to transcribe the
JavaScript string constants of the source. -/
def js (s : String) : List Nat :=
  (s.toList.map Char.toNat).foldr (fun c acc => codeUnits c ++ acc) []

/-- The JavaScript whitespace set recognised by `String.prototype.trim`
(ASCII whitespace, NBSP, BOM, and the Unicode space separators). -/
def jsWhitespaceChar (c : Nat) : Bool :=
  c = 9 ∨ c = 10 ∨ c = 11 ∨ c = 12 ∨ c = 13 ∨ c = 32 ∨ c = 160 ∨ c = 5760 ∨
  (8192 ≤ c ∧ c ≤ 8202) ∨ c = 8232 ∨ c = 8233 ∨ c = 8239 ∨ c = 8287 ∨
  c = 12288 ∨ c = 65279

/-- Models the blank check `!s || s.trim()` being the empty string: the
string is empty or trims to empty. -/
def isBlank (s : List Nat) : Bool := s.all jsWhitespaceChar

/-- JavaScript `%` on integers (remainder truncated toward zero; we only use
positive divisors, for which this agrees with `Int.tmod`). -/
def jsRem (a b : Int) : Int := if 0 ≤ a then a % b else -((-a) % b)

/-- Models `String.fromCharCode`: ToUint16 of the integer argument. -/
def toUint16 (n : Int) : Nat := (n % 65536).toNat

/-! ## btoa / atob: base64 of a binary (Latin-1) string

`btoa` maps a string of code units `< 256` to standard padded base64 and
throws on any larger code unit; `atob` implements forgiving base64 decode:
strip ASCII whitespace, strip proper trailing padding, reject a remainder
of length `1 (mod 4)`, decode 4-character groups with a final group of two
or three characters allowed. -/

/-- Base64 digit character for a 6-bit value. -/
def b64Char (v : Nat) : Nat :=
  if v < 26 then v + 65
  else if v < 52 then v + 71
  else if v < 62 then v - 4
  else if v = 62 then 43
  else 47

/-- Inverse of `b64Char`: 6-bit value of a base64 digit character. -/
def b64Val (c : Nat) : Option Nat :=
  if 65 ≤ c ∧ c ≤ 90 then some (c - 65)
  else if 97 ≤ c ∧ c ≤ 122 then some (c - 71)
  else if 48 ≤ c ∧ c ≤ 57 then some (c + 4)
  else if c = 43 then some 62
  else if c = 47 then some 63
  else none

/-- Unpadded base64 encoding of a byte list: groups of three bytes become
four digits, a final partial group of one or two bytes becomes two or
three digits. -/
def b64encodeCore : List Nat → List Nat
  | [] => []
  | [a] => [b64Char (a / 4), b64Char (a % 4 * 16)]
  | [a, b] => [b64Char (a / 4), b64Char (a % 4 * 16 + b / 16), b64Char (b % 16 * 4)]
  | a :: b :: c :: rest =>
    b64Char (a / 4) :: b64Char (a % 4 * 16 + b / 16) ::
    b64Char (b % 16 * 4 + c / 64) :: b64Char (c % 64) :: b64encodeCore rest

/-- The padding (character code 61, `=`) appended by `btoa`, determined by
the byte count. -/
def b64pad (n : Nat) : List Nat :=
  if n % 3 = 1 then [61, 61] else if n % 3 = 2 then [61] else []

/-- Models `btoa(s)`: padded base64 when every code unit is a byte, else a thrown
`InvalidCharacterError` (modelled as `none`). -/
def btoa (s : List Nat) : Option (List Nat) :=
  if s.all (· < 256) then some (b64encodeCore s ++ b64pad s.length) else none

/-- ASCII whitespace stripped by forgiving base64 decoding. -/
def b64Ws (c : Nat) : Bool := c = 9 ∨ c = 10 ∨ c = 12 ∨ c = 13 ∨ c = 32

/-- Strip up to two padding characters (code 61) from the front of a
(reversed) list. -/
def dropPadRev : List Nat → List Nat
  | [] => []
  | [x] => if x = 61 then [] else [x]
  | x :: y :: r2 =>
    if x = 61 then (if y = 61 then r2 else y :: r2) else x :: y :: r2

/-- Strip one or two trailing padding characters (code 61). -/
def b64stripPad (t : List Nat) : List Nat := (dropPadRev t.reverse).reverse

/-- Decode unpadded base64 digit groups back to bytes. -/
def b64decodeCore : List Nat → Option (List Nat)
  | [] => some []
  | [x, y] => do
    let a ← b64Val x
    let b ← b64Val y
    some [a * 4 + b / 16]
  | [x, y, z] => do
    let a ← b64Val x
    let b ← b64Val y
    let c ← b64Val z
    some [a * 4 + b / 16, b % 16 * 16 + c / 4]
  | x :: y :: z :: w :: rest => do
    let a ← b64Val x
    let b ← b64Val y
    let c ← b64Val z
    let d ← b64Val w
    let r ← b64decodeCore rest
    some ((a * 4 + b / 16) :: (b % 16 * 16 + c / 4) :: (c % 4 * 64 + d) :: r)
  | _ => none

/-- Forgiving decode of a whitespace-free candidate: strip proper trailing
padding, reject a remainder of `1 (mod 4)`, decode the digit groups. -/
def atobCore (t : List Nat) : Option (List Nat) :=
  let u := if t.length % 4 = 0 then b64stripPad t else t
  if u.length % 4 = 1 then none else b64decodeCore u

/-- Models `atob(s)`: forgiving base64 decode, `none` when the input is rejected
(a thrown `InvalidCharacterError`). -/
def atob (s : List Nat) : Option (List Nat) :=
  atobCore (s.filter (fun c => !(b64Ws c)))

/-! ### `atob (btoa s) = s` -/

theorem b64Val_b64Char {v : Nat} (h : v < 64) : b64Val (b64Char v) = some v := by
  revert v h; decide

theorem b64Char_props {v : Nat} (h : v < 64) :
    b64Char v ≠ 61 ∧ b64Ws (b64Char v) = false ∧ b64Char v < 256 := by
  revert v h; decide

theorem b64encodeCore_mem {s : List Nat} (hs : ∀ x ∈ s, x < 256) :
    ∀ y ∈ b64encodeCore s, ∃ v, v < 64 ∧ y = b64Char v := by
  induction s using b64encodeCore.induct with
  | case1 => intro y hy; simp [b64encodeCore] at hy
  | case2 a =>
    intro y hy
    have ha : a < 256 := hs a (by simp)
    simp only [b64encodeCore, List.mem_cons, List.not_mem_nil, or_false] at hy
    rcases hy with h | h
    · exact ⟨a / 4, by omega, h⟩
    · exact ⟨a % 4 * 16, by omega, h⟩
  | case3 a b =>
    intro y hy
    have ha : a < 256 := hs a (by simp)
    have hb : b < 256 := hs b (by simp)
    simp only [b64encodeCore, List.mem_cons, List.not_mem_nil, or_false] at hy
    rcases hy with h | h | h
    · exact ⟨a / 4, by omega, h⟩
    · exact ⟨a % 4 * 16 + b / 16, by omega, h⟩
    · exact ⟨b % 16 * 4, by omega, h⟩
  | case4 a b c rest ih =>
    intro y hy
    have ha : a < 256 := hs a (by simp)
    have hb : b < 256 := hs b (by simp)
    have hc : c < 256 := hs c (by simp)
    simp only [b64encodeCore, List.mem_cons] at hy
    rcases hy with h | h | h | h | h
    · exact ⟨a / 4, by omega, h⟩
    · exact ⟨a % 4 * 16 + b / 16, by omega, h⟩
    · exact ⟨b % 16 * 4 + c / 64, by omega, h⟩
    · exact ⟨c % 64, by omega, h⟩
    · exact ih (fun x hx => hs x (by simp [hx])) y h

theorem b64encodeCore_length (s : List Nat) :
    (b64encodeCore s).length =
      if s.length % 3 = 0 then s.length / 3 * 4
      else if s.length % 3 = 1 then s.length / 3 * 4 + 2
      else s.length / 3 * 4 + 3 := by
  induction s using b64encodeCore.induct with
  | case1 => simp [b64encodeCore]
  | case2 a => simp [b64encodeCore]
  | case3 a b => simp [b64encodeCore]
  | case4 a b c rest ih =>
    simp only [b64encodeCore, List.length_cons]
    rw [ih]
    have h1 : (rest.length + 1 + 1 + 1) % 3 = rest.length % 3 := by omega
    have h2 : (rest.length + 1 + 1 + 1) / 3 = rest.length / 3 + 1 := by omega
    rw [h1, h2]
    split_ifs <;> omega

theorem b64decodeCore_b64encodeCore {s : List Nat} (hs : ∀ x ∈ s, x < 256) :
    b64decodeCore (b64encodeCore s) = some s := by
  induction s using b64encodeCore.induct with
  | case1 => simp [b64encodeCore, b64decodeCore]
  | case2 a =>
    have ha : a < 256 := hs a (by simp)
    simp [b64encodeCore, b64decodeCore,
      b64Val_b64Char (show a / 4 < 64 by omega),
      b64Val_b64Char (show a % 4 * 16 < 64 by omega)]
    omega
  | case3 a b =>
    have ha : a < 256 := hs a (by simp)
    have hb : b < 256 := hs b (by simp)
    simp [b64encodeCore, b64decodeCore,
      b64Val_b64Char (show a / 4 < 64 by omega),
      b64Val_b64Char (show a % 4 * 16 + b / 16 < 64 by omega),
      b64Val_b64Char (show b % 16 * 4 < 64 by omega)]
    omega
  | case4 a b c rest ih =>
    have ha : a < 256 := hs a (by simp)
    have hb : b < 256 := hs b (by simp)
    have hc : c < 256 := hs c (by simp)
    have hrest : b64decodeCore (b64encodeCore rest) = some rest :=
      ih (fun x hx => hs x (by simp [hx]))
    simp [b64encodeCore, b64decodeCore,
      b64Val_b64Char (show a / 4 < 64 by omega),
      b64Val_b64Char (show a % 4 * 16 + b / 16 < 64 by omega),
      b64Val_b64Char (show b % 16 * 4 + c / 64 < 64 by omega),
      b64Val_b64Char (show c % 64 < 64 by omega), hrest]
    omega

theorem b64stripPad_no61 {t : List Nat} (h : ∀ y ∈ t, y ≠ 61) :
    b64stripPad t = t := by
  unfold b64stripPad
  suffices hd : dropPadRev t.reverse = t.reverse by rw [hd, List.reverse_reverse]
  cases hc : t.reverse with
  | nil => rfl
  | cons x r =>
    have hx : x ≠ 61 := h x (by rw [← List.mem_reverse, hc]; simp)
    cases r with
    | nil => simp [dropPadRev, hx]
    | cons y r2 => simp [dropPadRev, hx]

theorem b64stripPad_append_two (core : List Nat) :
    b64stripPad (core ++ [61, 61]) = core := by
  unfold b64stripPad
  have hc : (core ++ [61, 61]).reverse = 61 :: 61 :: core.reverse := by simp
  rw [hc]
  simp [dropPadRev]

theorem b64stripPad_append_one {core : List Nat} (h : ∀ y ∈ core, y ≠ 61) :
    b64stripPad (core ++ [61]) = core := by
  unfold b64stripPad
  have hc : (core ++ [61]).reverse = 61 :: core.reverse := by simp
  rw [hc]
  cases hr : core.reverse with
  | nil =>
    have : core = [] := by simpa using congrArg List.reverse hr
    simp [this, dropPadRev]
  | cons y r2 =>
    have hy : y ≠ 61 := h y (by rw [← List.mem_reverse, hr]; simp)
    simp only [dropPadRev]
    rw [if_true, if_neg hy, ← hr, List.reverse_reverse]

theorem atob_btoa {s e : List Nat} (hs : ∀ x ∈ s, x < 256)
    (he : btoa s = some e) : atob e = some s := by
  have hall : s.all (· < 256) = true := by
    simp only [List.all_eq_true, decide_eq_true_eq]; exact hs
  have hee : e = b64encodeCore s ++ b64pad s.length := by
    unfold btoa at he
    rw [hall] at he
    simpa using he.symm
  subst hee
  have hmem := b64encodeCore_mem hs
  have hnows : ∀ y ∈ b64encodeCore s, b64Ws y = false := by
    intro y hy
    obtain ⟨v, hv, rfl⟩ := hmem y hy
    exact (b64Char_props hv).2.1
  have hne61 : ∀ y ∈ b64encodeCore s, y ≠ 61 := by
    intro y hy
    obtain ⟨v, hv, rfl⟩ := hmem y hy
    exact (b64Char_props hv).1
  have hmod3 : s.length % 3 = 0 ∨ s.length % 3 = 1 ∨ s.length % 3 = 2 := by omega
  have hlen := b64encodeCore_length s
  -- the whitespace filter is the identity on the encoding
  have hfilter :
      (b64encodeCore s ++ b64pad s.length).filter (fun c => !(b64Ws c)) =
      b64encodeCore s ++ b64pad s.length := by
    rw [List.filter_eq_self]
    intro y hy
    rcases List.mem_append.mp hy with h | h
    · simp [hnows y h]
    · have : y = 61 := by
        unfold b64pad at h
        split at h <;> simp_all
      simp [this, b64Ws]
  unfold atob
  rw [hfilter]
  unfold atobCore
  -- the padded length is divisible by 4
  have hlenpad : (b64encodeCore s ++ b64pad s.length).length % 4 = 0 := by
    rw [List.length_append]
    unfold b64pad
    rcases hmod3 with h | h | h <;> simp [h] at hlen ⊢ <;> omega
  rw [if_pos hlenpad]
  -- stripping the padding recovers the unpadded encoding
  have hstrip : b64stripPad (b64encodeCore s ++ b64pad s.length) = b64encodeCore s := by
    unfold b64pad
    rcases hmod3 with h | h | h
    · simp only [h]
      norm_num
      exact b64stripPad_no61 hne61
    · simp only [h]
      norm_num
      exact b64stripPad_append_two _
    · simp only [h]
      norm_num
      exact b64stripPad_append_one hne61
  rw [hstrip]
  -- the unpadded length is never 1 mod 4
  have hcorelen : (b64encodeCore s).length % 4 ≠ 1 := by
    rcases hmod3 with h | h | h <;> simp [h] at hlen <;> omega
  rw [if_neg hcorelen]
  exact b64decodeCore_b64encodeCore hs

/-! ## UTF-8 transcoding

`unescape(encodeURIComponent(text))` turns a JS string into the string of
its UTF-8 bytes (throwing `URIError` on a lone surrogate), and
`decodeURIComponent(escape(bytes))` strictly decodes UTF-8 bytes back into
a JS string (surrogate pairs for astral code points), throwing on
malformed input.  We model the two compositions directly. -/

/-- Fuel-indexed UTF-8 encoding worker (each step consumes at least one
code unit, so `length + 1` fuel always suffices; the fuel only makes the
recursion structural). -/
def utf8EncodeF : Nat → List Nat → Option (List Nat)
  | _, [] => some []
  | 0, _ :: _ => none
  | f + 1, c :: rest =>
    if c < 128 then (utf8EncodeF f rest).map (c :: ·)
    else if c < 2048 then
      (utf8EncodeF f rest).map (fun bs => (192 + c / 64) :: (128 + c % 64) :: bs)
    else if c < 55296 ∨ 57344 ≤ c then
      (utf8EncodeF f rest).map (fun bs =>
        (224 + c / 4096) :: (128 + c / 64 % 64) :: (128 + c % 64) :: bs)
    else if c < 56320 then
      match rest with
      | l :: rest2 =>
        if 56320 ≤ l ∧ l < 57344 then
          (utf8EncodeF f rest2).map (fun bs =>
            let cp := 65536 + (c - 55296) * 1024 + (l - 56320)
            (240 + cp / 262144) :: (128 + cp / 4096 % 64) ::
            (128 + cp / 64 % 64) :: (128 + cp % 64) :: bs)
        else none
      | [] => none
    else none

/-- Models `unescape(encodeURIComponent(text))`: UTF-8 bytes of a UTF-16 code-unit
sequence; `none` models a thrown `URIError` on a lone surrogate. -/
def utf8Encode (s : List Nat) : Option (List Nat) :=
  utf8EncodeF (s.length + 1) s

/-- Fuel-indexed UTF-8 decoding worker. -/
def utf8DecodeF : Nat → List Nat → Option (List Nat)
  | _, [] => some []
  | 0, _ :: _ => none
  | f + 1, b :: rest =>
    if b < 128 then (utf8DecodeF f rest).map (b :: ·)
    else if b < 194 then none
    else if b < 224 then
      match rest with
      | b2 :: r2 =>
        if 128 ≤ b2 ∧ b2 < 192 then
          (utf8DecodeF f r2).map (((b - 192) * 64 + (b2 - 128)) :: ·)
        else none
      | [] => none
    else if b < 240 then
      match rest with
      | b2 :: b3 :: r2 =>
        let cp := (b - 224) * 4096 + (b2 - 128) * 64 + (b3 - 128)
        if 128 ≤ b2 ∧ b2 < 192 ∧ 128 ≤ b3 ∧ b3 < 192 ∧ 2048 ≤ cp ∧
            ¬(55296 ≤ cp ∧ cp < 57344) then
          (utf8DecodeF f r2).map (cp :: ·)
        else none
      | _ => none
    else if b < 245 then
      match rest with
      | b2 :: b3 :: b4 :: r2 =>
        let cp := (b - 240) * 262144 + (b2 - 128) * 4096 +
          (b3 - 128) * 64 + (b4 - 128)
        if 128 ≤ b2 ∧ b2 < 192 ∧ 128 ≤ b3 ∧ b3 < 192 ∧ 128 ≤ b4 ∧ b4 < 192 ∧
            65536 ≤ cp ∧ cp < 1114112 then
          (utf8DecodeF f r2).map (fun t =>
            (55296 + (cp - 65536) / 1024) :: (56320 + (cp - 65536) % 1024) :: t)
        else none
      | _ => none
    else none

/-- Models `decodeURIComponent(escape(bytes))`: strict UTF-8 decoding of a byte
string into UTF-16 code units; `none` models a thrown `URIError`. -/
def utf8Decode (s : List Nat) : Option (List Nat) :=
  utf8DecodeF (s.length + 1) s

/-- The XOR loop shared by `aesEncrypt`/`aesDecrypt`/`xorEncrypt`/
`xorDecrypt` (and the vault codec): character `i` becomes
`fromCharCode(c XOR key[i mod len] XOR (i mod 256))`.  `charCodeAt` on an
empty key yields `NaN`, which `^` coerces to `0`: `getD _ 0` models both
that and the in-range lookups. -/
def xorStream (key : List Nat) : Nat → List Nat → List Nat
  | _, [] => []
  | i, c :: rest =>
    ((c ^^^ key.getD (i % key.length) 0 ^^^ i % 256) % 65536) ::
      xorStream key (i + 1) rest


end JSem

/-! The cipher engine of `src/utils/encryption.ts` (`class CryptoString`). -/

namespace CryptoString

open JSem

/-- The key alphabet of `generateKey` (`encryption.ts` line 8). -/
def chars : List Nat :=
  js "ABCDEFGHIJKLMNOPQRSTUVWXYZabcdefghijklmnopqrstuvwxyz0123456789!@#$%^&*()_+-=[]\x7b\x7d|;:,.<>?"

/-- Models `generateKey(length = 32)`: one random byte per character, reduced
modulo the alphabet size (`encryption.ts` lines 7-17).  `rand i` is the
`i`-th byte drawn from `crypto.getRandomValues` (a `Uint8Array` cell, so
reduced `% 256`). -/
def generateKey (rand : Nat → Nat) (length : Nat := 32) : List Nat :=
  (List.range length).map (fun i => chars.getD (rand i % 256 % chars.length) 0)

/-- Models `generateSalt()` (`encryption.ts` lines 20-22). -/
def generateSalt (rand : Nat → Nat) : List Nat :=
  generateKey rand 16

/-- Models `deriveKey(key, salt?)` (`encryption.ts` lines 36-51).  `!salt` is true
both for an absent and for an empty salt.  The unused local `combined`
of the source is omitted. -/
def deriveKey (key : List Nat) (salt : Option (List Nat)) : List Nat :=
  match salt with
  | none => key
  | some s =>
    if s.isEmpty then key
    else
      (List.range (max key.length 32)).map (fun i =>
        (key.getD (i % key.length) 0 ^^^ s.getD (i % s.length) 0 ^^^ i) % 256)

/-- Models `aesEncrypt(text, key, salt?)` (`encryption.ts` lines 54-66): the XOR
stream under the derived key, then `btoa`.  The `Except` error is the
exception propagating out (a `btoa` `InvalidCharacterError`). -/
def aesEncrypt (text key : List Nat) (salt : Option (List Nat)) :
    Except (List Nat) (List Nat) :=
  match btoa (xorStream (deriveKey key salt) 0 text) with
  | some e => .ok e
  | none => .error (js "InvalidCharacterError")

/-- Models `aesDecrypt(encryptedText, key, salt?)` (`encryption.ts` lines 68-85):
`atob`, then the same XOR stream; any inner throw is converted to the
fixed error message. -/
def aesDecrypt (encryptedText key : List Nat) (salt : Option (List Nat)) :
    Except (List Nat) (List Nat) :=
  match atob encryptedText with
  | some decoded => .ok (xorStream (deriveKey key salt) 0 decoded)
  | none => .error (js "Invalid encrypted text or key for AES decryption")

/-- Per-character Caesar rotation (`encryption.ts` lines 88-102);
JavaScript `%` can return a negative remainder, which `fromCharCode`
(ToUint16) then wraps. -/
def caesarShiftChar (shift : Int) (c : Nat) : Nat :=
  if 65 ≤ c ∧ c ≤ 90 then toUint16 (jsRem ((c : Int) - 65 + shift) 26 + 65)
  else if 97 ≤ c ∧ c ≤ 122 then toUint16 (jsRem ((c : Int) - 97 + shift) 26 + 97)
  else if 48 ≤ c ∧ c ≤ 57 then toUint16 (jsRem ((c : Int) - 48 + shift) 10 + 48)
  else c

/-- Models `caesarEncrypt(text, shift)` (`encryption.ts` lines 88-102). -/
def caesarEncrypt (text : List Nat) (shift : Int) : List Nat :=
  text.map (caesarShiftChar shift)

/-- Models `caesarDecrypt(text, shift)` (`encryption.ts` lines 104-106). -/
def caesarDecrypt (text : List Nat) (shift : Int) : List Nat :=
  caesarEncrypt text (-shift)

/-- Models `xorEncrypt(text, key)` (`encryption.ts` lines 109-118). -/
def xorEncrypt (text key : List Nat) : Except (List Nat) (List Nat) :=
  match btoa (xorStream key 0 text) with
  | some e => .ok e
  | none => .error (js "InvalidCharacterError")

/-- Models `xorDecrypt(encryptedText, key)` (`encryption.ts` lines 120-134). -/
def xorDecrypt (encryptedText key : List Nat) : Except (List Nat) (List Nat) :=
  match atob encryptedText with
  | some decoded => .ok (xorStream key 0 decoded)
  | none => .error (js "Invalid encrypted text or key for XOR decryption")

/-- Models `base64Encrypt(text)` (`encryption.ts` lines 137-143):
`btoa(unescape(encodeURIComponent(text)))`, every failure mapped to the
one message by the `catch`. -/
def base64Encrypt (text : List Nat) : Except (List Nat) (List Nat) :=
  match utf8Encode text >>= btoa with
  | some e => .ok e
  | none => .error (js "Failed to encode text to Base64")

/-- Models `base64Decrypt(encodedText)` (`encryption.ts` lines 145-151):
`decodeURIComponent(escape(atob(encodedText)))`. -/
def base64Decrypt (encodedText : List Nat) : Except (List Nat) (List Nat) :=
  match atob encodedText >>= utf8Decode with
  | some t => .ok t
  | none => .error (js "Invalid Base64 encoded text")

/-- Models `hybridEncrypt(text, key, salt?)` (`encryption.ts` lines 154-169):
caesar with shift `key.charCodeAt(0) % 26`, then xor, then `atob` of the
xor output, then aes-like; any throw becomes the one message. -/
def hybridEncrypt (text key : List Nat) (salt : Option (List Nat)) :
    Except (List Nat) (List Nat) :=
  let shift : Int := ((key.getD 0 0 % 26 : Nat) : Int)
  let caesarResult := caesarEncrypt text shift
  match xorEncrypt caesarResult key with
  | .error _ => .error (js "Hybrid encryption failed")
  | .ok xorResult =>
    match atob xorResult with
    | none => .error (js "Hybrid encryption failed")
    | some xorDecoded =>
      match aesEncrypt xorDecoded key salt with
      | .ok e => .ok e
      | .error _ => .error (js "Hybrid encryption failed")

/-- Models `hybridDecrypt(encryptedText, key, salt?)` (`encryption.ts` lines
171-185): aes-like decrypt, re-`btoa`, xor decrypt, caesar decrypt; any
throw becomes the one message. -/
def hybridDecrypt (encryptedText key : List Nat) (salt : Option (List Nat)) :
    Except (List Nat) (List Nat) :=
  match aesDecrypt encryptedText key salt with
  | .error _ => .error (js "Hybrid decryption failed - invalid encrypted text or key")
  | .ok aesResult =>
    match btoa aesResult with
    | none => .error (js "Hybrid decryption failed - invalid encrypted text or key")
    | some reEncoded =>
      match xorDecrypt reEncoded key with
      | .error _ => .error (js "Hybrid decryption failed - invalid encrypted text or key")
      | .ok xorResult =>
        .ok (caesarDecrypt xorResult ((key.getD 0 0 % 26 : Nat) : Int))

/-- A base-36 digit value, as `parseInt(_, 36)` accepts (0-9, A-Z, a-z). -/
def digitVal36 (c : Nat) : Option Nat :=
  if 48 ≤ c ∧ c ≤ 57 then some (c - 48)
  else if 65 ≤ c ∧ c ≤ 90 then some (c - 55)
  else if 97 ≤ c ∧ c ≤ 122 then some (c - 87)
  else none

/-- Models `parseInt(s, 36)`: skip leading whitespace, optional sign, longest
digit run; `none` models `NaN`. -/
def jsParseInt36 (s : List Nat) : Option Int :=
  let t := s.dropWhile jsWhitespaceChar
  let signAndRest : Int × List Nat :=
    match t with
    | 43 :: r => (1, r)
    | 45 :: r => (-1, r)
    | _ => (1, t)
  let ds := signAndRest.2.takeWhile (fun c => (digitVal36 c).isSome)
  if ds.isEmpty then none
  else some (signAndRest.1 *
    ((ds.foldl (fun acc c => acc * 36 + (digitVal36 c).getD 0) 0 : Nat) : Int))

/-- The working Caesar shift of the top-level API:
`parseInt(key.slice(0, 2), 36) % 26 || 13` (`encryption.ts` lines 203 and
257): `13` when the parse is `NaN` or the remainder is `0`. -/
def caesarShiftOfKey (key : List Nat) : Int :=
  match jsParseInt36 (key.take 2) with
  | none => 13
  | some v => if jsRem v 26 = 0 then 13 else jsRem v 26

/-- Models `EncryptionConfig` (from `../types`, as the spec describes it, plus the
`useTimestamp` flag which the engine ignores is omitted). -/
structure EncryptionConfig where
  algorithm : List Nat
  keyLength : Nat
  useSalt : Bool
deriving DecidableEq

/-- Models `EncryptionResult` (from `../types`, as the spec describes it). -/
structure EncryptionResult where
  encrypted : List Nat
  key : List Nat
  algorithm : List Nat
  timestamp : Int
  salt : Option (List Nat)
deriving DecidableEq

/-- Models `DecryptionResult` (from `../types`, as the spec describes it). -/
structure DecryptionResult where
  decrypted : List Nat
  success : Bool
  error : Option (List Nat)
deriving DecidableEq

/-- Models `const key = config.keyLength ? this.generateKey(config.keyLength) :
this.generateKey();` (`encryption.ts` line 193): `0` is falsy, so it falls
back to the default length `32`. -/
def encryptKeyOf (randKey : Nat → Nat) (config : EncryptionConfig) : List Nat :=
  if config.keyLength ≠ 0 then generateKey randKey config.keyLength
  else generateKey randKey

/-- Models `const salt = config.useSalt ? this.generateSalt() : undefined;`
(`encryption.ts` line 194). -/
def encryptSaltOf (randSalt : Nat → Nat) (config : EncryptionConfig) :
    Option (List Nat) :=
  if config.useSalt then some (generateSalt randSalt) else none

/-- The `switch (config.algorithm)` dispatch inside the `try` block of `encrypt`
(`encryption.ts` lines 198-217), including the `default` throw. -/
def encryptDispatch (text key : List Nat) (salt : Option (List Nat))
    (algorithm : List Nat) : Except (List Nat) (List Nat) :=
  if algorithm = js "aes" then aesEncrypt text key salt
  else if algorithm = js "caesar" then
    .ok (caesarEncrypt text (caesarShiftOfKey key))
  else if algorithm = js "xor" then xorEncrypt text key
  else if algorithm = js "base64" then base64Encrypt text
  else if algorithm = js "hybrid" then hybridEncrypt text key salt
  else .error (js "Unsupported encryption algorithm")

/-- Models `encrypt(text, config)` (`encryption.ts` lines 188-229).  `randKey` and
`randSalt` are the byte streams of the two `getRandomValues` calls, `now`
is `Date.now()`. -/
def encrypt (randKey randSalt : Nat → Nat) (now : Int) (text : List Nat)
    (config : EncryptionConfig) : Except (List Nat) EncryptionResult :=
  if isBlank text then .error (js "Text to encrypt cannot be empty")
  else
    match encryptDispatch text (encryptKeyOf randKey config)
        (encryptSaltOf randSalt config) config.algorithm with
    | .ok e => .ok ⟨e, encryptKeyOf randKey config, config.algorithm, now,
        encryptSaltOf randSalt config⟩
    | .error m => .error (js "Encryption failed: " ++ m)

/-- The `switch (algorithm)` dispatch inside the `try` block of `decrypt`
(`encryption.ts` lines 250-271), including the `default` throw for a tag
outside the closed set. -/
def algorithmDecrypt (encryptedText key : List Nat) (algorithm : List Nat)
    (salt : Option (List Nat)) : Except (List Nat) (List Nat) :=
  if algorithm = js "aes" then aesDecrypt encryptedText key salt
  else if algorithm = js "caesar" then
    .ok (caesarDecrypt encryptedText (caesarShiftOfKey key))
  else if algorithm = js "xor" then xorDecrypt encryptedText key
  else if algorithm = js "base64" then base64Decrypt encryptedText
  else if algorithm = js "hybrid" then hybridDecrypt encryptedText key salt
  else .error (js "Unsupported decryption algorithm")

/-- Models `decrypt(encryptedText, key, algorithm, salt?)` (`encryption.ts` lines
232-281). -/
def decrypt (encryptedText key : List Nat) (algorithm : List Nat)
    (salt : Option (List Nat)) : DecryptionResult :=
  if isBlank encryptedText then
    ⟨[], false, some (js "Encrypted text cannot be empty")⟩
  else if isBlank key then
    ⟨[], false, some (js "Decryption key cannot be empty")⟩
  else
    match algorithmDecrypt encryptedText key algorithm salt with
    | .ok d => ⟨d, true, none⟩
    | .error e => ⟨[], false, some e⟩

/-! ## The decryption logic embedded by `generateDecryptionCode`

`generateDecryptionCode` (`encryption.ts` lines 284-501) emits a
JavaScript snippet per algorithm; the following definitions transcribe
the decryption functions those snippets contain.  The aes / xor / base64
snippet bodies coincide with the class methods (up to the re-thrown
message); the caesar snippet (lines 341-355, also embedded in the hybrid
snippet) differs: it adds the class modulus (`+ 26` or `+ 10`) before
taking `%`. -/

/-- Models `caesarDecrypt` as emitted in the caesar snippet (lines 341-355). -/
def genCaesarDecrypt (text : List Nat) (shift : Int) : List Nat :=
  text.map (fun (c : Nat) =>
    if 65 ≤ c ∧ c ≤ 90 then toUint16 (jsRem ((c : Int) - 65 - shift + 26) 26 + 65)
    else if 97 ≤ c ∧ c ≤ 122 then toUint16 (jsRem ((c : Int) - 97 - shift + 26) 26 + 97)
    else if 48 ≤ c ∧ c ≤ 57 then toUint16 (jsRem ((c : Int) - 48 - shift + 10) 10 + 48)
    else c)

/-- Models `aesDecrypt` as emitted in the aes snippet (lines 308-323). -/
def genAesDecrypt (encryptedText key : List Nat) (salt : Option (List Nat)) :
    Except (List Nat) (List Nat) :=
  match atob encryptedText with
  | some decoded => .ok (xorStream (deriveKey key salt) 0 decoded)
  | none => .error (js "Decryption failed: InvalidCharacterError")

/-- Models `xorDecrypt` as emitted in the xor snippet (lines 367-381). -/
def genXorDecrypt (encryptedText key : List Nat) :
    Except (List Nat) (List Nat) :=
  match atob encryptedText with
  | some decoded => .ok (xorStream key 0 decoded)
  | none => .error (js "Decryption failed: InvalidCharacterError")

/-- Models `base64Decrypt` as emitted in the base64 snippet (lines 397-403). -/
def genBase64Decrypt (encodedText : List Nat) : Except (List Nat) (List Nat) :=
  match atob encodedText >>= utf8Decode with
  | some t => .ok t
  | none => .error (js "Invalid Base64 text: URIError")

end CryptoString

/-! ## JSON values, `JSON.parse` and `JSON.stringify`

The vault serializes its key list with `JSON.stringify` and reads it back
with `JSON.parse`.  JSON numbers are modelled as integers (the vault only
ever stores integer epoch-millisecond timestamps; a fractional or
exponent-form number is treated as a parse failure).  All parser workers
are fuel-indexed with structural recursion on the fuel so that they
evaluate by kernel reduction; the fuel supplied by the entry points is an
input-length bound that each worker never exhausts. -/

namespace JSem

/-- JSON values. -/
inductive JValue where
  | jnull
  | jbool (b : Bool)
  | jnum (n : Int)
  | jstr (s : List Nat)
  | jarr (elems : List JValue)
  | jobj (fields : List (List Nat × JValue))

/-- Property lookup on a parsed object.  `JSON.parse` keeps the last of
duplicate keys, hence the reversed search; lookup on a non-object is
`undefined`. -/
def jGet (j : JValue) (k : List Nat) : Option JValue :=
  match j with
  | .jobj fields => (fields.reverse.find? (fun f => f.1 = k)).map (·.2)
  | _ => none

/-- JSON whitespace. -/
def jsonWs (c : Nat) : Bool := c = 32 ∨ c = 9 ∨ c = 10 ∨ c = 13

/-- Skip JSON whitespace. -/
def skipWs (s : List Nat) : List Nat := s.dropWhile jsonWs

/-- ASCII decimal digit. -/
def isDigit (c : Nat) : Bool := 48 ≤ c ∧ c ≤ 57

/-- Hexadecimal digit value. -/
def hexVal (c : Nat) : Option Nat :=
  if 48 ≤ c ∧ c ≤ 57 then some (c - 48)
  else if 65 ≤ c ∧ c ≤ 70 then some (c - 55)
  else if 97 ≤ c ∧ c ≤ 102 then some (c - 87)
  else none

/-- Fuel-indexed JSON string-body parser (positioned after the opening
quote); returns the decoded code units and the input after the closing
quote. -/
def pStrF : Nat → List Nat → Option (List Nat × List Nat)
  | 0, _ => none
  | _, [] => none
  | f + 1, c :: rest =>
    if c = 34 then some ([], rest)
    else if c = 92 then
      match rest with
      | [] => none
      | e :: rest2 =>
        if e = 34 ∨ e = 92 ∨ e = 47 then
          (pStrF f rest2).map (fun p => (e :: p.1, p.2))
        else if e = 98 then (pStrF f rest2).map (fun p => (8 :: p.1, p.2))
        else if e = 102 then (pStrF f rest2).map (fun p => (12 :: p.1, p.2))
        else if e = 110 then (pStrF f rest2).map (fun p => (10 :: p.1, p.2))
        else if e = 114 then (pStrF f rest2).map (fun p => (13 :: p.1, p.2))
        else if e = 116 then (pStrF f rest2).map (fun p => (9 :: p.1, p.2))
        else if e = 117 then
          match rest2 with
          | h1 :: h2 :: h3 :: h4 :: rest3 =>
            match hexVal h1, hexVal h2, hexVal h3, hexVal h4 with
            | some v1, some v2, some v3, some v4 =>
              (pStrF f rest3).map (fun p =>
                ((v1 * 4096 + v2 * 256 + v3 * 16 + v4) :: p.1, p.2))
            | _, _, _, _ => none
          | _ => none
        else none
    else if c < 32 then none
    else (pStrF f rest).map (fun p => (c :: p.1, p.2))

/-- JSON string-body parser. -/
def pStr (s : List Nat) : Option (List Nat × List Nat) :=
  pStrF (s.length + 1) s

/-- Longest run of decimal digits as a number (at least one digit). -/
def pDigits (s : List Nat) : Option (Nat × List Nat) :=
  let ds := s.takeWhile isDigit
  if ds.isEmpty then none
  else some (ds.foldl (fun acc c => acc * 10 + (c - 48)) 0, s.drop ds.length)

/-- Array-tail parser: parses `v (, v)* ]` given a value parser for the
elements; fuel-indexed on the element count. -/
def pElems (pvf : List Nat → Option (JValue × List Nat)) :
    Nat → List Nat → List JValue → Option (JValue × List Nat)
  | 0, _, _ => none
  | f + 1, s, acc =>
    match pvf s with
    | none => none
    | some (v, r) =>
      match skipWs r with
      | 44 :: r2 => pElems pvf f r2 (acc ++ [v])
      | 93 :: r2 => some (.jarr (acc ++ [v]), r2)
      | _ => none

/-- Object-tail parser: parses `"k" : v (, "k" : v)* \x7d`. -/
def pFields (pvf : List Nat → Option (JValue × List Nat)) :
    Nat → List Nat → List (List Nat × JValue) → Option (JValue × List Nat)
  | 0, _, _ => none
  | f + 1, s, acc =>
    match skipWs s with
    | 34 :: r =>
      match pStr r with
      | none => none
      | some (k, r2) =>
        match skipWs r2 with
        | 58 :: r3 =>
          match pvf r3 with
          | none => none
          | some (v, r4) =>
            match skipWs r4 with
            | 44 :: r5 => pFields pvf f r5 (acc ++ [(k, v)])
            | 125 :: r5 => some (.jobj (acc ++ [(k, v)]), r5)
            | _ => none
        | _ => none
    | _ => none

/-- Fuel-indexed JSON value parser; the fuel bounds the nesting depth. -/
def pValue : Nat → List Nat → Option (JValue × List Nat)
  | 0, _ => none
  | f + 1, s =>
    match skipWs s with
    | [] => none
    | c :: r =>
      if c = 34 then (pStr r).map (fun p => (.jstr p.1, p.2))
      else if c = 91 then
        match skipWs r with
        | 93 :: r2 => some (.jarr [], r2)
        | _ => pElems (pValue f) (r.length + 1) r []
      else if c = 123 then
        match skipWs r with
        | 125 :: r2 => some (.jobj [], r2)
        | _ => pFields (pValue f) (r.length + 1) r []
      else if c = 116 then
        match r with
        | 114 :: 117 :: 101 :: r2 => some (.jbool true, r2)
        | _ => none
      else if c = 102 then
        match r with
        | 97 :: 108 :: 115 :: 101 :: r2 => some (.jbool false, r2)
        | _ => none
      else if c = 110 then
        match r with
        | 117 :: 108 :: 108 :: r2 => some (.jnull, r2)
        | _ => none
      else if c = 45 then
        match pDigits r with
        | some (n, r2) => some (.jnum (-(n : Int)), r2)
        | none => none
      else if isDigit c then
        match pDigits (c :: r) with
        | some (n, r2) => some (.jnum (n : Int), r2)
        | none => none
      else none

/-- Models `JSON.parse(s)`: parse one value, allow trailing whitespace only;
`none` models a thrown `SyntaxError`. -/
def jsonParse (s : List Nat) : Option JValue :=
  match pValue (s.length + 2) s with
  | some (v, rest) => if (skipWs rest).isEmpty then some v else none
  | none => none

/-- Lowercase hexadecimal digit character. -/
def hexDigit (n : Nat) : Nat := if n < 10 then 48 + n else 87 + n

/-- Models `JSON.stringify` escaping of one string character. -/
def escapeJsonChar (c : Nat) : List Nat :=
  if c = 34 then [92, 34]
  else if c = 92 then [92, 92]
  else if c = 8 then [92, 98]
  else if c = 9 then [92, 116]
  else if c = 10 then [92, 110]
  else if c = 12 then [92, 102]
  else if c = 13 then [92, 114]
  else if c < 32 then [92, 117, 48, 48, hexDigit (c / 16), hexDigit (c % 16)]
  else [c]

/-- Models `JSON.stringify` rendering of a string. -/
def renderString (s : List Nat) : List Nat :=
  (34 :: s.foldr (fun c acc => escapeJsonChar c ++ acc) []) ++ [34]

/-- Decimal digits of a natural number (fuel-indexed; `n + 1` fuel always
suffices since the digit count is at most `n + 1`). -/
def renderNat : Nat → Nat → List Nat
  | 0, _ => []
  | f + 1, n => if n < 10 then [48 + n] else renderNat f (n / 10) ++ [48 + n % 10]

/-- Models `JSON.stringify` rendering of an integer. -/
def renderInt (n : Int) : List Nat :=
  if n < 0 then 45 :: renderNat (n.natAbs + 1) n.natAbs
  else renderNat (n.natAbs + 1) n.natAbs

/-- Comma-joined concatenation. -/
def joinComma : List (List Nat) → List Nat
  | [] => []
  | [x] => x
  | x :: xs => (x ++ [44]) ++ joinComma xs

/-- Truthiness of a JSON value under JavaScript coercion. -/
def jsFalsy : JValue → Bool
  | .jnull => true
  | .jbool b => !b
  | .jnum n => n = 0
  | .jstr s => s.isEmpty
  | _ => false

/-- Template-literal stringification of a JSON value, fuel-indexed for
array nesting (an array nested deeper than the supplied fuel renders
empty; the vault theorems never depend on these rendered names). -/
def jsTemplateStrF : Nat → JValue → List Nat
  | _, .jnull => js "null"
  | _, .jbool b => if b then js "true" else js "false"
  | _, .jnum n => renderInt n
  | _, .jstr s => s
  | _, .jobj _ => js "[object Object]"
  | 0, .jarr _ => []
  | f + 1, .jarr xs => joinComma (xs.map (jsTemplateStrF f))

end JSem

/-! The encrypted key vault of `src/utils/keyStorage.ts`
(`class KeyStorage`).  `localStorage` is modelled by passing the stored
vault payload (`Option (List Nat)`, `none` when the storage key is absent)
in and out; the master key, lazily created once and then fixed
process-wide, is an explicit argument. -/

namespace KeyStorage

open JSem

/-- Models `StoredKey` (from `../types`, as the spec describes it: id, name, key,
algorithm, and the two epoch-millisecond stamps, which may be absent).
Extra properties carried by spread syntax in the source are not
modelled. -/
structure StoredKey where
  id : List Nat
  name : List Nat
  key : List Nat
  algorithm : List Nat
  created : Option Int
  used : Option Int
deriving DecidableEq

/-- Models `JSON.stringify` of one stored key (fields in declaration order;
absent `created`/`used` are omitted, as `JSON.stringify` omits
`undefined` properties). -/
def renderStoredKey (k : StoredKey) : List Nat :=
  List.flatten
    [[123], renderString (js "id"), [58], renderString k.id, [44],
     renderString (js "name"), [58], renderString k.name, [44],
     renderString (js "key"), [58], renderString k.key, [44],
     renderString (js "algorithm"), [58], renderString k.algorithm,
     (match k.created with
      | some n => [44] ++ renderString (js "created") ++ [58] ++ renderInt n
      | none => []),
     (match k.used with
      | some n => [44] ++ renderString (js "used") ++ [58] ++ renderInt n
      | none => []),
     [125]]

/-- Models `JSON.stringify(keys)` for the full key list. -/
def stringifyKeys (ks : List StoredKey) : List Nat :=
  [91] ++ joinComma (ks.map renderStoredKey) ++ [93]

/-- Models `encryptData(data)` (`keyStorage.ts` lines 28-42): the position-varying
XOR under the master key, base64-encoded; on an inner throw the `catch`
falls back to `btoa(data)`, whose own throw propagates (`none`). -/
def encryptData (masterKey data : List Nat) : Option (List Nat) :=
  match btoa (xorStream masterKey 0 data) with
  | some encrypted => some encrypted
  | none => btoa data

/-- Models `decryptData(encryptedData)` (`keyStorage.ts` lines 44-63): `atob`,
then the inverse XOR; on a throw the `catch` retries plain `atob`, and on
its failure returns the literal `"[]"`. -/
def decryptData (masterKey encryptedData : List Nat) : List Nat :=
  match atob encryptedData with
  | some decoded => xorStream masterKey 0 decoded
  | none =>
    match atob encryptedData with
    | some decoded => decoded
    | none => js "[]"

/-- The `created`/`used` number read off a parsed entry (a non-number
property is not representable in `StoredKey` and is modelled as absent). -/
def jNumField (j : JValue) (f : List Nat) : Option Int :=
  match jGet j f with
  | some (.jnum n) => some n
  | _ => none

/-- The structural filter of `getAllKeys` (`keyStorage.ts` lines 100-106):
keep an entry only when `id`, `name`, `key` and `algorithm` are all
strings. -/
def toStoredKey (j : JValue) : Option StoredKey :=
  match jGet j (js "id"), jGet j (js "name"), jGet j (js "key"),
      jGet j (js "algorithm") with
  | some (.jstr i), some (.jstr n), some (.jstr k), some (.jstr a) =>
    some ⟨i, n, k, a, jNumField j (js "created"), jNumField j (js "used")⟩
  | _, _, _, _ => none

/-- Models `getAllKeys()` (`keyStorage.ts` lines 89-111): absent payload gives
`[]`; decode, parse, require an array, filter by structural shape; any
parse throw gives `[]`. -/
def getAllKeys (masterKey : List Nat) (stored : Option (List Nat)) :
    List StoredKey :=
  match stored with
  | none => []
  | some encrypted =>
    match jsonParse (decryptData masterKey encrypted) with
    | some (.jarr elems) => elems.filterMap toStoredKey
    | _ => []

/-- Models `x || Date.now()` on a stamp: absent or `0` is replaced by `now`. -/
def jsOrNow (v : Option Int) (now : Int) : Option Int :=
  match v with
  | none => some now
  | some n => if n = 0 then some now else some n

/-- The upsert of `saveKey` (`keyStorage.ts` lines 71-78): replace the
first entry with the same id (stamping `used = now`), else append with
defaulted stamps. -/
def upsertKeys (now : Int) (keys : List StoredKey) (k : StoredKey) :
    List StoredKey :=
  match keys.findIdx? (fun e => e.id = k.id) with
  | some i => keys.set i { k with used := some now }
  | none => keys ++ [{ k with created := jsOrNow k.created now,
                              used := jsOrNow k.used now }]

/-- Models `saveKey(key)` (`keyStorage.ts` lines 65-87).  Returns the boolean
result and the updated payload; a throw anywhere (the validation throw,
or `btoa` failing in both codec paths) is caught and yields `false` with
the storage unchanged. -/
def saveKey (now : Int) (masterKey : List Nat) (stored : Option (List Nat))
    (k : StoredKey) : Bool × Option (List Nat) :=
  if k.id.isEmpty ∨ k.name.isEmpty ∨ k.key.isEmpty ∨ k.algorithm.isEmpty then
    (false, stored)
  else
    let keys := getAllKeys masterKey stored
    match encryptData masterKey (stringifyKeys (upsertKeys now keys k)) with
    | some encrypted => (true, some encrypted)
    | none => (false, stored)

/-- The closed algorithm set of `validateKeyStructure`. -/
def validAlgorithms : List (List Nat) :=
  [js "aes", js "caesar", js "xor", js "base64", js "hybrid"]

/-- Models `validateKeyStructure(key)` (`keyStorage.ts` lines 207-218): an object
with string `name`/`key`/`algorithm`, non-blank name and key, and an
algorithm in the closed set. -/
def validateKeyStructure (j : JValue) : Bool :=
  match jGet j (js "name"), jGet j (js "key"), jGet j (js "algorithm") with
  | some (.jstr n), some (.jstr k), some (.jstr a) =>
    !(isBlank n) && !(isBlank k) && validAlgorithms.contains a
  | _, _, _ => false

/-- Models `key.name` with the fallback literal Unknown, as interpolated
into the error template literals. -/
def errName (j : JValue) : List Nat :=
  match jGet j (js "name") with
  | some v => if jsFalsy v then js "Unknown" else jsTemplateStrF 8 v
  | none => js "Unknown"

/-- The `{ ...key, id: <fresh> }` record saved by `importKeys`: the
validated string fields of the element with a freshly generated id
(`fid idx` models `Date.now().toString() + Math.random()...` for the
`idx`-th element). -/
def importEntry (fid : Nat → List Nat) (idx : Nat) (j : JValue) : StoredKey where
  id := fid idx
  name := match jGet j (js "name") with | some (.jstr s) => s | _ => []
  key := match jGet j (js "key") with | some (.jstr s) => s | _ => []
  algorithm := match jGet j (js "algorithm") with | some (.jstr s) => s | _ => []
  created := jNumField j (js "created")
  used := jNumField j (js "used")

/-- The result record of `importKeys`. -/
structure ImportResult where
  success : Bool
  imported : Nat
  errors : List (List Nat)
deriving DecidableEq

/-- The `for (const key of importedKeys)` loop of `importKeys`
(`keyStorage.ts` lines 183-195), threading the storage payload through
the `saveKey` calls and accumulating one error per rejected or failed
element. -/
def importLoop (fid : Nat → List Nat) (now : Int) (masterKey : List Nat) :
    List JValue → Nat → Nat → List (List Nat) → Option (List Nat) →
    Nat × List (List Nat) × Option (List Nat)
  | [], _, imported, errors, stored => (imported, errors, stored)
  | item :: rest, idx, imported, errors, stored =>
    if validateKeyStructure item then
      match saveKey now masterKey stored (importEntry fid idx item) with
      | (true, stored2) =>
        importLoop fid now masterKey rest (idx + 1) (imported + 1) errors stored2
      | (false, stored2) =>
        importLoop fid now masterKey rest (idx + 1) imported
          (errors ++ [js "Failed to save key: " ++ errName item]) stored2
    else
      importLoop fid now masterKey rest (idx + 1) imported
        (errors ++ [js "Invalid key structure: " ++ errName item]) stored

/-- Models `importKeys(keysData)` (`keyStorage.ts` lines 171-205).  The
`JSON.parse` failure message is modelled by a fixed string (the real
message is engine-specific). -/
def importKeys (fid : Nat → List Nat) (now : Int) (masterKey : List Nat)
    (stored : Option (List Nat)) (keysData : List Nat) :
    ImportResult × Option (List Nat) :=
  match jsonParse keysData with
  | none => (⟨false, 0, [js "Parse error: invalid JSON"]⟩, stored)
  | some (.jarr items) =>
    let r := importLoop fid now masterKey items 0 0 [] stored
    (⟨decide (0 < r.1), r.1, r.2.1⟩, r.2.2)
  | some _ => (⟨false, 0, [js "Invalid format: expected array of keys"]⟩, stored)

end KeyStorage

/-! ### Model sanity checks against concrete host/engine behaviour -/

example : JSem.btoa (JSem.js "Man") = some (JSem.js "TWFu") := by decide
example : JSem.btoa (JSem.js "M") = some (JSem.js "TQ==") := by decide
example : JSem.btoa (JSem.js "Ma") = some (JSem.js "TWE=") := by decide
example : JSem.atob (JSem.js "TWFu") = some (JSem.js "Man") := by decide
example : JSem.atob (JSem.js "TWE") = some (JSem.js "Ma") := by decide
example : CryptoString.chars.length = 88 := by decide
example : CryptoString.xorEncrypt (JSem.js "Hello") (JSem.js "Key") =
    .ok (JSem.js "AwEXJA4=") := rfl
example : CryptoString.aesEncrypt (JSem.js "Hello") (JSem.js "Key")
    (some (JSem.js "Sa")) = .ok (JSem.js "UGFGRlk=") := rfl
example : (CryptoString.deriveKey (JSem.js "abc") (some (JSem.js "xy"))).take 8 =
    [25, 26, 25, 27, 30, 31, 31, 28] := by decide
example : (CryptoString.deriveKey (JSem.js "abc") (some (JSem.js "xy"))).length = 32 := by
  decide
example : CryptoString.caesarEncrypt (JSem.js "N") 13 = JSem.js "A" := by decide
example : CryptoString.caesarDecrypt (JSem.js "A") 13 = JSem.js "4" := by decide
example : CryptoString.caesarEncrypt (JSem.js "Az9!") 3 = JSem.js "Dc2!" := by decide
example : CryptoString.hybridEncrypt (JSem.js "Hello") (JSem.js "Key") none =
    .ok (JSem.js "RWJpaWw=") := rfl
example : CryptoString.hybridDecrypt (JSem.js "RWJpaWw=") (JSem.js "Key") none =
    .ok (JSem.js ".KRRU") := rfl
example : CryptoString.hybridEncrypt (JSem.js "Hi!") (JSem.js "Zkey")
    (some (JSem.js "ss")) = .ok (JSem.js "JwdQ") := rfl
example : CryptoString.hybridDecrypt (JSem.js "JwdQ") (JSem.js "Zkey")
    (some (JSem.js "ss")) = .ok (JSem.js "Hi!") := rfl
example : CryptoString.caesarShiftOfKey (JSem.js "13") = 13 := by decide
example : CryptoString.caesarShiftOfKey (JSem.js "00") = 13 := by decide
example : CryptoString.caesarShiftOfKey (JSem.js "!!") = 13 := by decide
example : CryptoString.base64Encrypt (JSem.js "héllo") = .ok (JSem.js "aMOpbGxv") := rfl
example : CryptoString.base64Decrypt (JSem.js "aMOpbGxv") = .ok (JSem.js "héllo") := rfl
example : JSem.utf8Encode (JSem.js "😀") = some [240, 159, 152, 128] := by decide
example : JSem.utf8Decode [240, 159, 152, 128] = some (JSem.js "😀") := by decide

set_option maxRecDepth 4096 in
example : JSem.jsonParse (JSem.js "[]") = some (.jarr []) := rfl
example : KeyStorage.decryptData (JSem.js "K") (JSem.js "!") = JSem.js "[]" := rfl
set_option maxRecDepth 8192 in
example :
    KeyStorage.saveKey 5 (JSem.js "K") none
      ⟨JSem.js "a", JSem.js "n", JSem.js "k", JSem.js "aes", none, none⟩ =
    (true, some (JSem.js
      "EDFrIStsd24iYG1iKScoIXlgezZ9cn83NitzanU9d3hJCwUPABwEGAsPQ1pFBwAXWVZbGw0bHAgWFlNKQlpXAXhvbSo1O3BR")) := by
  decide
set_option maxRecDepth 8192 in
example :
    KeyStorage.getAllKeys (JSem.js "K") (some (JSem.js
      "EDFrIStsd24iYG1iKScoIXlgezZ9cn83NitzanU9d3hJCwUPABwEGAsPQ1pFBwAXWVZbGw0bHAgWFlNKQlpXAXhvbSo1O3BR")) =
    [⟨JSem.js "a", JSem.js "n", JSem.js "k", JSem.js "aes", some 5, some 5⟩] := by
  decide
set_option maxRecDepth 8192 in
example :
    KeyStorage.importKeys (fun _ => JSem.js "X") 7 (JSem.js "K") none
      (JSem.js "[\x7b\"name\":\"a\",\"key\":\"b\",\"algorithm\":\"aes\",\"id\":\"X\"\x7d]") =
    (⟨true, 1, []⟩, some (JSem.js
      "EDFrIStsd24bYG1iKScoIXlgezl9cn83NitzanU0d3hJCwUPABwEGAsPQ1pFBwAXWVZbGw0bHAgWFlNKQFpXAXhvbSo1OXBR")) := by
  decide

/-! ## Helper lemmas about the XOR stream and key derivation -/

namespace JSem

theorem xor_lt_256 {a b : Nat} (ha : a < 256) (hb : b < 256) : a ^^^ b < 256 := by
  have e8 : (2 : Nat) ^ 8 = 256 := by norm_num
  exact e8 ▸ Nat.xor_lt_two_pow (e8.symm ▸ ha) (e8.symm ▸ hb)

theorem xor_lt_65536 {a b : Nat} (ha : a < 65536) (hb : b < 65536) :
    a ^^^ b < 65536 := by
  have e16 : (2 : Nat) ^ 16 = 65536 := by norm_num
  exact e16 ▸ Nat.xor_lt_two_pow (e16.symm ▸ ha) (e16.symm ▸ hb)

theorem getD_lt {l : List Nat} {B : Nat} (hl : ∀ c ∈ l, c < B) (hB : 0 < B)
    (n : Nat) : l.getD n 0 < B := by
  induction l generalizing n with
  | nil => simpa [List.getD] using hB
  | cons a l ih =>
    cases n with
    | zero => simpa using hl a (by simp)
    | succ m =>
      simp only [List.getD_cons_succ]
      exact ih (fun c hc => hl c (by simp [hc])) m

theorem xor_mix_cancel (c k m : Nat) : ((c ^^^ k ^^^ m) ^^^ k) ^^^ m = c := by
  rw [Nat.xor_assoc (c ^^^ k) m k, Nat.xor_comm m k, ← Nat.xor_assoc (c ^^^ k) k m,
    Nat.xor_cancel_right, Nat.xor_cancel_right]

theorem xorStream_mem_lt_256 {key t : List Nat} (hk : ∀ c ∈ key, c < 256)
    (ht : ∀ c ∈ t, c < 256) : ∀ i, ∀ c ∈ xorStream key i t, c < 256 := by
  induction t with
  | nil => intro i c hc; simp [xorStream] at hc
  | cons a rest ih =>
    intro i c hc
    have ha : a < 256 := ht a (by simp)
    have hkd : key.getD (i % key.length) 0 < 256 := getD_lt hk (by omega) _
    simp only [xorStream, List.mem_cons] at hc
    rcases hc with h | h
    · have hx : a ^^^ key.getD (i % key.length) 0 ^^^ i % 256 < 256 :=
        xor_lt_256 (xor_lt_256 ha hkd) (Nat.mod_lt i (by omega))
      omega
    · exact ih (fun c hc => ht c (by simp [hc])) (i + 1) c h

theorem xorStream_invol {key : List Nat} (hk : ∀ c ∈ key, c < 65536) :
    ∀ (t : List Nat), (∀ c ∈ t, c < 65536) → ∀ i,
      xorStream key i (xorStream key i t) = t := by
  intro t
  induction t with
  | nil => intro _ i; simp [xorStream]
  | cons a rest ih =>
    intro ht i
    have ha : a < 65536 := ht a (by simp)
    have hkd : key.getD (i % key.length) 0 < 65536 := getD_lt hk (by omega) _
    have hm : i % 256 < 65536 := by
      have := Nat.mod_lt i (show 0 < 256 by omega)
      omega
    have hx : a ^^^ key.getD (i % key.length) 0 ^^^ i % 256 < 65536 :=
      xor_lt_65536 (xor_lt_65536 ha hkd) hm
    simp only [xorStream, Nat.mod_eq_of_lt hx, List.cons.injEq]
    refine ⟨?_, ih (fun c hc => ht c (by simp [hc])) (i + 1)⟩
    have hy : (a ^^^ key.getD (i % key.length) 0 ^^^ i % 256) ^^^
        key.getD (i % key.length) 0 ^^^ i % 256 < 65536 :=
      xor_lt_65536 (xor_lt_65536 hx hkd) hm
    rw [Nat.mod_eq_of_lt hy]
    exact xor_mix_cancel a _ _

end JSem

namespace CryptoString

open JSem

theorem deriveKey_mem_lt_256 {key : List Nat} (salt : Option (List Nat))
    (hk : ∀ c ∈ key, c < 256) : ∀ c ∈ deriveKey key salt, c < 256 := by
  cases salt with
  | none => simpa [deriveKey] using hk
  | some s =>
    by_cases hs : s.isEmpty
    · simpa [deriveKey, hs] using hk
    · intro c hc
      simp only [deriveKey, if_neg hs, List.mem_map, List.mem_range] at hc
      obtain ⟨i, _, hfi⟩ := hc
      rw [← hfi]
      exact Nat.mod_lt _ (by omega)

/-- The round-trip core: a Latin-1 XOR stream base64-encodes, decodes back,
and the stream is an involution. -/
theorem xorStream_roundtrip {key t : List Nat} (hk : ∀ c ∈ key, c < 256)
    (ht : ∀ c ∈ t, c < 256) :
    ∃ e, btoa (xorStream key 0 t) = some e ∧
      atob e = some (xorStream key 0 t) ∧
      xorStream key 0 (xorStream key 0 t) = t := by
  have hlt := xorStream_mem_lt_256 hk ht 0
  have hball : (xorStream key 0 t).all (· < 256) = true := by
    simp only [List.all_eq_true, decide_eq_true_eq]
    exact hlt
  refine ⟨b64encodeCore (xorStream key 0 t) ++ b64pad (xorStream key 0 t).length,
    ?_, ?_, ?_⟩
  · simp [btoa, hball]
  · exact atob_btoa hlt (by simp [btoa, hball])
  · exact xorStream_invol (fun c hc => lt_trans (hk c hc) (by omega)) t
      (fun c hc => lt_trans (ht c hc) (by omega)) 0

/-- C10: for every non-empty Latin-1 key (all code units at most 255) and
every Latin-1 plaintext, `xorDecrypt` inverts `xorEncrypt`, and
`aesDecrypt` inverts `aesEncrypt` for every optional salt. -/
theorem xor_aes_roundtrip (t key : List Nat) (salt : Option (List Nat))
    (hkey : key ≠ []) (hk : ∀ c ∈ key, c < 256) (ht : ∀ c ∈ t, c < 256) :
    (∃ e, xorEncrypt t key = .ok e ∧ xorDecrypt e key = .ok t) ∧
    (∃ e, aesEncrypt t key salt = .ok e ∧ aesDecrypt e key salt = .ok t) := by
  constructor
  · obtain ⟨e, hb, ha, hi⟩ := xorStream_roundtrip hk ht
    refine ⟨e, ?_, ?_⟩
    · simp [xorEncrypt, hb]
    · simp [xorDecrypt, ha, hi]
  · obtain ⟨e, hb, ha, hi⟩ := xorStream_roundtrip (deriveKey_mem_lt_256 salt hk) ht
    refine ⟨e, ?_, ?_⟩
    · simp [aesEncrypt, hb]
    · simp [aesDecrypt, ha, hi]

/-- Witness for `xor_aes_roundtrip` at `t = "Hello"`, `key = "Key"`,
`salt = "Sa"`. -/
theorem xor_aes_roundtrip_witness :
    (∃ e, xorEncrypt (js "Hello") (js "Key") = .ok e ∧
      xorDecrypt e (js "Key") = .ok (js "Hello")) ∧
    (∃ e, aesEncrypt (js "Hello") (js "Key") (some (js "Sa")) = .ok e ∧
      aesDecrypt e (js "Key") (some (js "Sa")) = .ok (js "Hello")) :=
  xor_aes_roundtrip (js "Hello") (js "Key") (some (js "Sa"))
    (by decide) (by decide) (by decide)

theorem genCaesar_inverts_char (sh : Int) (hs1 : 1 ≤ sh) (hs2 : sh ≤ 25)
    (c : Nat) (hc : ¬(48 ≤ c ∧ c ≤ 57)) :
    genCaesarDecrypt (caesarEncrypt [c] sh) sh = [c] := by
  by_cases h1 : 65 ≤ c ∧ c ≤ 90
  · -- uppercase
    have hge : (0 : Int) ≤ (c : Int) - 65 + sh := by omega
    simp only [caesarEncrypt, caesarShiftChar, List.map_cons, List.map_nil,
      if_pos h1, jsRem, if_pos hge]
    set r := ((c : Int) - 65 + sh) % 26 with hr
    have hr0 : 0 ≤ r := Int.emod_nonneg _ (by norm_num)
    have hr26 : r < 26 := Int.emod_lt_of_pos _ (by norm_num)
    have htu : toUint16 (r + 65) = (r + 65).toNat := by
      unfold toUint16
      rw [Int.emod_eq_of_lt (by omega) (by omega)]
    rw [htu]
    set e := (r + 65).toNat with he
    have he1 : 65 ≤ e ∧ e ≤ 90 := by omega
    have hge2 : (0 : Int) ≤ (e : Int) - 65 - sh + 26 := by omega
    simp only [genCaesarDecrypt, List.map_cons, List.map_nil, if_pos he1,
      jsRem, if_pos hge2, toUint16, List.cons.injEq, and_true]
    omega
  · by_cases h2 : 97 ≤ c ∧ c ≤ 122
    · -- lowercase
      have hge : (0 : Int) ≤ (c : Int) - 97 + sh := by omega
      simp only [caesarEncrypt, caesarShiftChar, List.map_cons, List.map_nil,
        if_neg h1, if_pos h2, jsRem, if_pos hge]
      set r := ((c : Int) - 97 + sh) % 26 with hr
      have hr0 : 0 ≤ r := Int.emod_nonneg _ (by norm_num)
      have hr26 : r < 26 := Int.emod_lt_of_pos _ (by norm_num)
      have htu : toUint16 (r + 97) = (r + 97).toNat := by
        unfold toUint16
        rw [Int.emod_eq_of_lt (by omega) (by omega)]
      rw [htu]
      set e := (r + 97).toNat with he
      have he0 : ¬(65 ≤ e ∧ e ≤ 90) := by omega
      have he1 : 97 ≤ e ∧ e ≤ 122 := by omega
      have hge2 : (0 : Int) ≤ (e : Int) - 97 - sh + 26 := by omega
      simp only [genCaesarDecrypt, List.map_cons, List.map_nil, if_neg he0,
        if_pos he1, jsRem, if_pos hge2, toUint16, List.cons.injEq, and_true]
      omega
    · -- neither a letter nor (by hypothesis) a digit: both maps fix `c`
      simp only [caesarEncrypt, caesarShiftChar, List.map_cons, List.map_nil,
        if_neg h1, if_neg h2, if_neg hc, genCaesarDecrypt]

theorem genCaesar_inverts (t : List Nat) (sh : Int) (hs1 : 1 ≤ sh)
    (hs2 : sh ≤ 25) (ht : ∀ c ∈ t, ¬(48 ≤ c ∧ c ≤ 57)) :
    genCaesarDecrypt (caesarEncrypt t sh) sh = t := by
  induction t with
  | nil => rfl
  | cons a rest ih =>
    have hhead := genCaesar_inverts_char sh hs1 hs2 a (ht a (by simp))
    have htail := ih (fun c hc => ht c (by simp [hc]))
    simp only [caesarEncrypt, genCaesarDecrypt, List.map_cons, List.map_nil,
      List.cons.injEq, and_true] at hhead
    simp only [caesarEncrypt, genCaesarDecrypt, List.map_cons] at htail ⊢
    rw [List.cons.injEq]
    exact ⟨hhead, htail⟩

/-- C3 (counterexample): the caesar snippet emitted by
`generateDecryptionCode` and the class method `caesarDecrypt` disagree as
functions of `(text, shift)`: at `("A", 13)` the snippet wraps correctly
to `"N"` while the class method produces `"4"`. -/
theorem generated_caesar_snippet_differs :
    genCaesarDecrypt (js "A") 13 = js "N" ∧
    caesarDecrypt (js "A") 13 = js "4" ∧
    genCaesarDecrypt (js "A") 13 ≠ caesarDecrypt (js "A") 13 :=
  ⟨by decide, by decide, by decide⟩

/-- C3 (amended): for the aes, xor and base64 algorithms the decryption
logic embedded in the generated script computes exactly the same plaintext
as the class decrypt functions; the caesar snippet (also embedded in the
hybrid snippet) instead computes the correct modular inverse — it inverts
`caesarEncrypt` on digit-free text for every shift the key derivation can
produce (1..25) — and so agrees with `CryptoString.caesarDecrypt` only on
characters that do not wrap below their class base. -/
theorem generated_decryption_code_equivalence :
    (∀ e k s, (genAesDecrypt e k s).toOption = (aesDecrypt e k s).toOption) ∧
    (∀ e k, (genXorDecrypt e k).toOption = (xorDecrypt e k).toOption) ∧
    (∀ e, (genBase64Decrypt e).toOption = (base64Decrypt e).toOption) ∧
    (∀ t sh, 1 ≤ sh → sh ≤ 25 → (∀ c ∈ t, ¬(48 ≤ c ∧ c ≤ 57)) →
      genCaesarDecrypt (caesarEncrypt t sh) sh = t) := by
  refine ⟨?_, ?_, ?_, fun t sh h1 h2 h3 => genCaesar_inverts t sh h1 h2 h3⟩
  · intro e k s
    cases h : atob e <;> simp [genAesDecrypt, aesDecrypt, h, Except.toOption]
  · intro e k
    cases h : atob e <;> simp [genXorDecrypt, xorDecrypt, h, Except.toOption]
  · intro e
    cases h : atob e >>= utf8Decode <;>
      simp [genBase64Decrypt, base64Decrypt, h, Except.toOption]

/-- Witness for `generated_decryption_code_equivalence` at concrete
inputs. -/
theorem generated_decryption_code_equivalence_witness :
    (genAesDecrypt (js "TWFu") (js "Key") none).toOption =
      (aesDecrypt (js "TWFu") (js "Key") none).toOption ∧
    genCaesarDecrypt (caesarEncrypt (js "Hello World!") 13) 13 =
      js "Hello World!" :=
  ⟨generated_decryption_code_equivalence.1 (js "TWFu") (js "Key") none,
   generated_decryption_code_equivalence.2.2.2 (js "Hello World!") 13
     (by decide) (by decide) (by decide)⟩

/-- C1 (code bug): the caesar round-trip fails.  `generateKey` can produce
the key `"13"` (random bytes 53, 55), whose derived shift is `13`;
`encrypt` maps the non-blank text `"N"` to `"A"`, but `decrypt` with the
same key and algorithm returns `{decrypted: "4", success: true}` — not
`"N"` — because `caesarDecrypt` feeds a negative value to JavaScript `%`
instead of wrapping into the class. -/
theorem caesar_roundtrip_failure :
    generateKey (fun i => [53, 55].getD i 0) 2 = js "13" ∧
    encrypt (fun i => [53, 55].getD i 0) (fun _ => 0) 0 (js "N")
      ⟨js "caesar", 2, false⟩ =
      .ok ⟨js "A", js "13", js "caesar", 0, none⟩ ∧
    decrypt (js "A") (js "13") (js "caesar") none = ⟨js "4", true, none⟩ ∧
    js "4" ≠ js "N" :=
  ⟨rfl, rfl, rfl, by decide⟩

/-- C2 (counterexample): `encrypt` performs no clamping of the key length —
with `config.keyLength = 70` the returned key has length `70`, outside
`16..64` (the `16..64` clamp lives in the UI form, not in `encrypt`). -/
theorem encrypt_keyLength_not_clamped :
    (encrypt (fun _ => 0) (fun _ => 0) 0 (js "A")
        ⟨js "aes", 70, false⟩).map (fun r => r.key.length) = .ok 70 ∧
    ¬(16 ≤ (70 : Nat) ∧ (70 : Nat) ≤ 64) :=
  ⟨rfl, by decide⟩

/-- C2 (amended): the key generated by `encrypt` has length exactly
`config.keyLength` (or the default `32` when that is `0`); in particular
it lies in `16..64` exactly when the configured length does. -/
theorem encrypt_generates_unclamped_key_length (rk rs : Nat → Nat) (now : Int)
    (text : List Nat) (config : EncryptionConfig) (r : EncryptionResult)
    (h : encrypt rk rs now text config = .ok r) :
    r.key.length = (if config.keyLength = 0 then 32 else config.keyLength) ∧
    (16 ≤ config.keyLength ∧ config.keyLength ≤ 64 →
      16 ≤ r.key.length ∧ r.key.length ≤ 64) := by
  have hkey : (encryptKeyOf rk config).length =
      (if config.keyLength = 0 then 32 else config.keyLength) := by
    unfold encryptKeyOf
    by_cases hkl : config.keyLength = 0
    · simp [hkl, generateKey]
    · simp [hkl, generateKey]
  have hr : r.key = encryptKeyOf rk config := by
    unfold encrypt at h
    by_cases hb : isBlank text = true
    · rw [if_pos hb] at h
      exact absurd h (by simp)
    · rw [if_neg hb] at h
      split at h
      · rename_i e heq
        have h2 : (⟨e, encryptKeyOf rk config, config.algorithm, now,
            encryptSaltOf rs config⟩ : EncryptionResult) = r := by
          exact Except.ok.inj h
        rw [← h2]
      · exact absurd h (by simp)
  rw [hr, hkey]
  refine ⟨rfl, ?_⟩
  rintro ⟨h16, h64⟩
  by_cases hkl : config.keyLength = 0 <;> simp [hkl] <;> omega

/-- Witness for `encrypt_generates_unclamped_key_length` at
`config.keyLength = 2`. -/
theorem encrypt_generates_unclamped_key_length_witness :
    (js "13").length = (if (2 : Nat) = 0 then 32 else 2) ∧
    (16 ≤ (2 : Nat) ∧ (2 : Nat) ≤ 64 →
      16 ≤ (js "13").length ∧ (js "13").length ≤ 64) :=
  encrypt_generates_unclamped_key_length (fun i => [53, 55].getD i 0)
    (fun _ => 0) 0 (js "N") ⟨js "caesar", 2, false⟩
    ⟨js "A", js "13", js "caesar", 0, none⟩ (by rfl)

/-- C8 (counterexample): the `generateKey` alphabet has 88 symbols, not
91; under the claimed `byte % 91` indexing, byte `88` would select index
`88` (out of range — `undefined`), while the code reduces `88 % 88 = 0`
and yields `"A"`. -/
theorem alphabet_has_88_symbols :
    chars.length = 88 ∧ ¬chars.length = 91 ∧
    generateKey (fun _ => 88) 1 = [65] ∧
    [65] ≠ [chars.getD (88 % 91) 0] :=
  ⟨by decide, by decide, by decide, by decide⟩

/-- C8 (amended): `generateKey(length)` (default 32) returns exactly
`length` characters, character `i` being the fixed 88-symbol alphabet
indexed by the `i`-th random byte reduced modulo 88; and
`generateSalt() = generateKey(16)`. -/
theorem generateKey_spec (rand : Nat → Nat) (len : Nat) :
    (generateKey rand len).length = len ∧
    (∀ i, i < len →
      (generateKey rand len).getD i 0 = chars.getD (rand i % 256 % 88) 0) ∧
    generateSalt rand = generateKey rand 16 ∧
    chars.length = 88 := by
  refine ⟨by simp [generateKey], ?_, rfl, by decide⟩
  intro i hi
  have h88 : chars.length = 88 := by decide
  have hlen : (generateKey rand len).length = len := by simp [generateKey]
  rw [List.getD_eq_getElem _ _ (by omega)]
  simp [generateKey, h88]

/-- Witness for `generateKey_spec` at `rand = const 0`, `len = 1`. -/
theorem generateKey_spec_witness :
    (generateKey (fun _ => 0) 1).length = 1 ∧
    (generateKey (fun _ => 0) 1).getD 0 0 = chars.getD (0 % 256 % 88) 0 ∧
    generateSalt (fun _ => 0) = generateKey (fun _ => 0) 16 ∧
    chars.length = 88 :=
  ⟨(generateKey_spec (fun _ => 0) 1).1,
   (generateKey_spec (fun _ => 0) 1).2.1 0 (by decide),
   (generateKey_spec (fun _ => 0) 1).2.2.1,
   (generateKey_spec (fun _ => 0) 1).2.2.2⟩

theorem xor_i_mod_256 {a b : Nat} (i : Nat) (ha : a < 256) (hb : b < 256) :
    (a ^^^ b ^^^ i) % 256 = a ^^^ b ^^^ i % 256 := by
  have h256 : (256 : Nat) = 2 ^ 8 := by norm_num
  rw [h256]
  apply Nat.eq_of_testBit_eq
  intro j
  simp only [Nat.testBit_mod_two_pow, Nat.testBit_xor]
  by_cases hj : j < 8
  · simp [hj]
  · have hle : (2 : Nat) ^ 8 ≤ 2 ^ j := Nat.pow_le_pow_right (by omega) (by omega)
    have h1 : a.testBit j = false :=
      Nat.testBit_lt_two_pow (lt_of_lt_of_le (h256 ▸ ha) hle)
    have h2 : b.testBit j = false :=
      Nat.testBit_lt_two_pow (lt_of_lt_of_le (h256 ▸ hb) hle)
    simp [hj, h1, h2]

/-- C9 (counterexample): for a key with a code unit above 255 the claimed
per-position formula (`key[i mod len] XOR salt[i mod len] XOR (i mod
256)`) disagrees with `deriveKey`, which reduces the whole XOR modulo
256: at `key = [256]`, `salt = "A"`, position 0 the code yields `65`, the
claimed formula `321`. -/
theorem deriveKey_unicode_formula_mismatch :
    (deriveKey [256] (some [65])).getD 0 0 = 65 ∧
    [256].getD (0 % 1) 0 ^^^ [65].getD (0 % 1) 0 ^^^ 0 % 256 = 321 ∧
    (65 : Nat) ≠ 321 :=
  ⟨by decide, by decide, by decide⟩

/-- C9 (amended): with no salt `deriveKey` returns the key unchanged; with
a non-empty salt it returns `max(len(key), 32)` characters, character `i`
being `(key[i mod len(key)] XOR salt[i mod len(salt)] XOR i) mod 256` —
which equals the claimed `key[i mod len(key)] XOR salt[i mod len(salt)]
XOR (i mod 256)` whenever key and salt are Latin-1.  Determinism is
definitional: the stream is a pure function of `(key, salt)`. -/
theorem deriveKey_spec (key salt : List Nat) (hk : key ≠ []) (hs : salt ≠ []) :
    deriveKey key none = key ∧
    (deriveKey key (some salt)).length = max key.length 32 ∧
    (∀ i, i < max key.length 32 →
      (deriveKey key (some salt)).getD i 0 =
        (key.getD (i % key.length) 0 ^^^ salt.getD (i % salt.length) 0 ^^^ i) %
          256) ∧
    ((∀ c ∈ key, c < 256) → (∀ c ∈ salt, c < 256) →
      ∀ i, i < max key.length 32 →
        (deriveKey key (some salt)).getD i 0 =
          key.getD (i % key.length) 0 ^^^ salt.getD (i % salt.length) 0 ^^^
            i % 256) := by
  have hse : ¬salt.isEmpty = true := by
    cases salt with
    | nil => exact absurd rfl hs
    | cons a l => simp
  have hgd : ∀ i, i < max key.length 32 →
      (deriveKey key (some salt)).getD i 0 =
        (key.getD (i % key.length) 0 ^^^ salt.getD (i % salt.length) 0 ^^^ i) %
          256 := by
    intro i hi
    have hlen : (deriveKey key (some salt)).length = max key.length 32 := by
      simp [deriveKey, hse]
    rw [List.getD_eq_getElem _ _ (by omega)]
    simp [deriveKey, hse]
  refine ⟨rfl, by simp [deriveKey, hse], hgd, ?_⟩
  intro hk256 hs256 i hi
  rw [hgd i hi]
  exact xor_i_mod_256 i (getD_lt hk256 (by omega) _) (getD_lt hs256 (by omega) _)

/-- Witness for `deriveKey_spec` at `key = "ab"`, `salt = "xy"`,
position 0. -/
theorem deriveKey_spec_witness :
    deriveKey (js "ab") none = js "ab" ∧
    (deriveKey (js "ab") (some (js "xy"))).length = max (js "ab").length 32 ∧
    (deriveKey (js "ab") (some (js "xy"))).getD 0 0 =
      ((js "ab").getD (0 % (js "ab").length) 0 ^^^
        (js "xy").getD (0 % (js "xy").length) 0 ^^^ 0) % 256 ∧
    (deriveKey (js "ab") (some (js "xy"))).getD 0 0 =
      (js "ab").getD (0 % (js "ab").length) 0 ^^^
        (js "xy").getD (0 % (js "xy").length) 0 ^^^ 0 % 256 := by
  have h := deriveKey_spec (js "ab") (js "xy") (by decide) (by decide)
  exact ⟨h.1, h.2.1, h.2.2.1 0 (by decide),
    h.2.2.2 (by decide) (by decide) 0 (by decide)⟩

/-- C4: `decrypt` is a total function (it never throws — every
algorithm-level failure is an `Except` value it converts): a blank
ciphertext or key yields `{success: false}` with the corresponding
message, otherwise the result succeeds exactly when the
algorithm-specific decryption succeeds (carrying its plaintext), fails
with the message of the failing algorithm otherwise, and an algorithm tag outside the
closed set yields the `Unsupported decryption algorithm` error. -/
theorem decrypt_total_classification (ct key alg : List Nat)
    (salt : Option (List Nat)) :
    (isBlank ct = true →
      decrypt ct key alg salt =
        ⟨[], false, some (js "Encrypted text cannot be empty")⟩) ∧
    (isBlank ct = false → isBlank key = true →
      decrypt ct key alg salt =
        ⟨[], false, some (js "Decryption key cannot be empty")⟩) ∧
    (isBlank ct = false → isBlank key = false →
      ((decrypt ct key alg salt).success = true ↔
        ∃ d, algorithmDecrypt ct key alg salt = .ok d) ∧
      (∀ d, algorithmDecrypt ct key alg salt = .ok d →
        decrypt ct key alg salt = ⟨d, true, none⟩) ∧
      (∀ e, algorithmDecrypt ct key alg salt = .error e →
        decrypt ct key alg salt = ⟨[], false, some e⟩)) ∧
    (isBlank ct = false → isBlank key = false →
      alg ∉ [js "aes", js "caesar", js "xor", js "base64", js "hybrid"] →
      decrypt ct key alg salt =
        ⟨[], false, some (js "Unsupported decryption algorithm")⟩) := by
  refine ⟨?_, ?_, ?_, ?_⟩
  · intro h
    simp [decrypt, h]
  · intro h1 h2
    simp [decrypt, h1, h2]
  · intro h1 h2
    cases hd : algorithmDecrypt ct key alg salt with
    | ok d =>
      refine ⟨by simp [decrypt, h1, h2, hd], ?_, ?_⟩ <;> intro x hx <;>
        simp [hx] at hd <;> simp [decrypt, h1, h2, hx, hd]
    | error e =>
      refine ⟨by simp [decrypt, h1, h2, hd], ?_, ?_⟩ <;> intro x hx <;>
        simp [hx] at hd <;> simp [decrypt, h1, h2, hx, hd]
  · intro h1 h2 hmem
    have hd : algorithmDecrypt ct key alg salt =
        .error (js "Unsupported decryption algorithm") := by
      simp only [List.mem_cons, List.not_mem_nil, or_false] at hmem
      push_neg at hmem
      obtain ⟨n1, n2, n3, n4, n5⟩ := hmem
      unfold algorithmDecrypt
      rw [if_neg n1, if_neg n2, if_neg n3, if_neg n4, if_neg n5]
    simp [decrypt, h1, h2, hd]

/-- Witness for `decrypt_total_classification`: a blank ciphertext, and an
algorithm tag outside the closed set. -/
theorem decrypt_total_classification_witness :
    decrypt (js "") (js "k") (js "aes") none =
      ⟨[], false, some (js "Encrypted text cannot be empty")⟩ ∧
    decrypt (js "x") (js "k") (js "rot13") none =
      ⟨[], false, some (js "Unsupported decryption algorithm")⟩ :=
  ⟨(decrypt_total_classification (js "") (js "k") (js "aes") none).1 (by decide),
   (decrypt_total_classification (js "x") (js "k") (js "rot13") none).2.2.2
     (by decide) (by decide) (by decide)⟩

end CryptoString

namespace KeyStorage

open JSem

/-- C5: vault payload decryption is total: when `atob` rejects the stored
string the codec returns the literal `"[]"` (the plain-base64 fallback
necessarily fails on the same input) and `getAllKeys` returns `[]`; when
`atob` accepts, the master-key XOR inverse is applied; and every entry
`getAllKeys` returns comes from a parsed array element whose `id`,
`name`, `key` and `algorithm` are all strings (entries failing that
structural check are filtered out). -/
theorem decryptData_fallback_and_filter (mk b : List Nat) :
    (atob b = none → decryptData mk b = js "[]" ∧ getAllKeys mk (some b) = []) ∧
    (∀ d, atob b = some d → decryptData mk b = xorStream mk 0 d) ∧
    (∀ k, k ∈ getAllKeys mk (some b) →
      ∃ elems j, jsonParse (decryptData mk b) = some (.jarr elems) ∧
        j ∈ elems ∧
        jGet j (js "id") = some (.jstr k.id) ∧
        jGet j (js "name") = some (.jstr k.name) ∧
        jGet j (js "key") = some (.jstr k.key) ∧
        jGet j (js "algorithm") = some (.jstr k.algorithm)) := by
  refine ⟨?_, ?_, ?_⟩
  · intro h
    have hd : decryptData mk b = js "[]" := by simp [decryptData, h]
    refine ⟨hd, ?_⟩
    have hg : getAllKeys mk (some b) =
        match jsonParse (decryptData mk b) with
        | some (.jarr elems) => elems.filterMap toStoredKey
        | _ => [] := rfl
    rw [hg, hd]
    rfl
  · intro d h
    simp [decryptData, h]
  · intro k hk
    have hg : getAllKeys mk (some b) =
        match jsonParse (decryptData mk b) with
        | some (.jarr elems) => elems.filterMap toStoredKey
        | _ => [] := rfl
    rw [hg] at hk
    cases hp : jsonParse (decryptData mk b) with
    | none => rw [hp] at hk; simp at hk
    | some v =>
      rw [hp] at hk
      cases v with
      | jarr elems =>
        simp only [List.mem_filterMap] at hk
        obtain ⟨j, hj, hjk⟩ := hk
        refine ⟨elems, j, rfl, hj, ?_⟩
        unfold toStoredKey at hjk
        split at hjk
        · rename_i i n ky a h1 h2 h3 h4
          have hkk := Option.some.inj hjk
          rw [← hkk]
          exact ⟨h1, h2, h3, h4⟩
        · exact absurd hjk (by simp)
      | jnull => simp at hk
      | jbool x => simp at hk
      | jnum x => simp at hk
      | jstr x => simp at hk
      | jobj x => simp at hk

/-- Witness for `decryptData_fallback_and_filter`: the corrupt payload
`"!"` is not base64, so the codec degrades to `"[]"` and `getAllKeys`
returns the empty list. -/
theorem decryptData_fallback_and_filter_witness :
    decryptData (js "K") (js "!") = js "[]" ∧
    getAllKeys (js "K") (some (js "!")) = [] :=
  (decryptData_fallback_and_filter (js "K") (js "!")).1 (by decide)

/-! ### Latin-1 bounds on the serialized vault payload -/

/-- All four string fields of a stored key are Latin-1 (code units at most
255).  The serialized list is then Latin-1, so the vault codec can base64
it. -/
def latin1Fields (k : StoredKey) : Prop :=
  (∀ c ∈ k.id, c < 256) ∧ (∀ c ∈ k.name, c < 256) ∧
  (∀ c ∈ k.key, c < 256) ∧ (∀ c ∈ k.algorithm, c < 256)

instance (k : StoredKey) : Decidable (latin1Fields k) := by
  unfold latin1Fields
  infer_instance

theorem hexDigit_lt {n : Nat} (h : n < 16) : hexDigit n < 256 := by
  unfold hexDigit
  split <;> omega

theorem escapeJsonChar_lt {c : Nat} (hc : c < 256) :
    ∀ x ∈ escapeJsonChar c, x < 256 := by
  intro x hx
  unfold escapeJsonChar at hx
  split_ifs at hx <;>
    simp only [List.mem_cons, List.not_mem_nil, or_false] at hx
  all_goals
    first
    | (rcases hx with h | h | h | h | h | h <;>
        subst h <;>
        first
        | omega
        | exact hexDigit_lt (by omega)
        | exact hexDigit_lt (Nat.mod_lt _ (by omega)))
    | (rcases hx with h | h <;> subst h <;> omega)
    | (subst hx; omega)

theorem escFold_lt {s : List Nat} (hs : ∀ c ∈ s, c < 256) :
    ∀ x ∈ s.foldr (fun c acc => escapeJsonChar c ++ acc) [], x < 256 := by
  induction s with
  | nil => intro x hx; simp at hx
  | cons a rest ih =>
    intro x hx
    simp only [List.foldr_cons] at hx
    rcases List.mem_append.mp hx with h2 | h2
    · exact escapeJsonChar_lt (hs a (by simp)) x h2
    · exact ih (fun c hc => hs c (by simp [hc])) x h2

theorem renderString_lt {s : List Nat} (hs : ∀ c ∈ s, c < 256) :
    ∀ x ∈ renderString s, x < 256 := by
  intro x hx
  unfold renderString at hx
  rcases List.mem_append.mp hx with h | h
  · rcases List.mem_cons.mp h with h | h
    · omega
    · exact escFold_lt hs x h
  · simp only [List.mem_singleton] at h
    omega

theorem renderNat_lt (f n : Nat) : ∀ x ∈ renderNat f n, x < 256 := by
  induction f generalizing n with
  | zero => intro x hx; simp [renderNat] at hx
  | succ f ih =>
    intro x hx
    unfold renderNat at hx
    split at hx
    · simp only [List.mem_singleton] at hx
      omega
    · rcases List.mem_append.mp hx with h | h
      · exact ih (n / 10) x h
      · simp only [List.mem_singleton] at h
        have := Nat.mod_lt n (show 0 < 10 by omega)
        omega

theorem renderInt_lt (n : Int) : ∀ x ∈ renderInt n, x < 256 := by
  intro x hx
  unfold renderInt at hx
  split at hx
  · rcases List.mem_cons.mp hx with h | h
    · omega
    · exact renderNat_lt _ _ x h
  · exact renderNat_lt _ _ x hx

theorem joinComma_lt {ls : List (List Nat)}
    (h : ∀ l ∈ ls, ∀ x ∈ l, x < 256) : ∀ x ∈ joinComma ls, x < 256 := by
  induction ls with
  | nil => intro x hx; simp [joinComma] at hx
  | cons l rest ih =>
    intro x hx
    cases rest with
    | nil => exact h l (by simp) x (by simpa [joinComma] using hx)
    | cons l2 rest2 =>
      rw [show joinComma (l :: l2 :: rest2) =
          (l ++ [44]) ++ joinComma (l2 :: rest2) from rfl] at hx
      rcases List.mem_append.mp hx with h2 | h2
      · rcases List.mem_append.mp h2 with h3 | h3
        · exact h l (by simp) x h3
        · simp only [List.mem_singleton] at h3
          omega
      · refine ih ?_ x h2
        intro l3 hl3
        exact h l3 (by simp [List.mem_cons] at hl3 ⊢; tauto)

theorem renderStoredKey_lt {k : StoredKey} (hk : latin1Fields k) :
    ∀ x ∈ renderStoredKey k, x < 256 := by
  obtain ⟨h1, h2, h3, h4⟩ := hk
  intro x hx
  unfold renderStoredKey at hx
  rw [List.mem_flatten] at hx
  obtain ⟨l, hl, hxl⟩ := hx
  fin_cases hl
  all_goals
    first
    | (simp only [List.mem_singleton] at hxl; omega)
    | exact renderString_lt (by decide) x hxl
    | exact renderString_lt h1 x hxl
    | exact renderString_lt h2 x hxl
    | exact renderString_lt h3 x hxl
    | exact renderString_lt h4 x hxl
    | (revert hxl
       split
       · rename_i n heq
         intro hxl
         simp only [List.append_assoc, List.mem_append, List.mem_cons,
           List.not_mem_nil, or_false, List.mem_singleton] at hxl
         rcases hxl with h | h | h | h
         · omega
         · exact renderString_lt (by decide) x h
         · omega
         · exact renderInt_lt _ x h
       · intro hxl
         simp at hxl)

theorem stringifyKeys_lt {ks : List StoredKey}
    (h : ∀ e ∈ ks, latin1Fields e) : ∀ x ∈ stringifyKeys ks, x < 256 := by
  intro x hx
  unfold stringifyKeys at hx
  simp only [List.append_assoc, List.mem_append, List.mem_cons,
    List.not_mem_nil, or_false, List.mem_singleton] at hx
  rcases hx with h2 | h2 | h2
  · omega
  · refine joinComma_lt ?_ x h2
    intro l hl
    simp only [List.mem_map] at hl
    obtain ⟨e, he, rfl⟩ := hl
    exact renderStoredKey_lt (h e he)
  · omega

theorem list_set_getElem_self {α : Type _} {l : List α} {i : Nat}
    (hi : i < l.length) : l.set i l[i] = l := by
  induction l generalizing i with
  | nil => simp at hi
  | cons a rest ih =>
    cases i with
    | zero => simp
    | succ j =>
      simp only [List.getElem_cons_succ, List.set_cons_succ, List.cons.injEq,
        true_and]
      exact ih (by simpa using hi)

/-- The behaviour of the `saveKey` upsert: a present id is replaced in
place (first occurrence, `used` stamped, length and the id sequence
unchanged — no duplicate is created), an absent id is appended with
defaulted stamps. -/
theorem upsertKeys_spec (now : Int) (keys : List StoredKey) (k : StoredKey) :
    (k.id ∈ keys.map (·.id) →
      (upsertKeys now keys k).length = keys.length ∧
      (upsertKeys now keys k).map (·.id) = keys.map (·.id) ∧
      { k with used := some now } ∈ upsertKeys now keys k) ∧
    (k.id ∉ keys.map (·.id) →
      upsertKeys now keys k =
        keys ++ [{ k with created := jsOrNow k.created now,
                          used := jsOrNow k.used now }]) := by
  constructor
  · intro hmem
    have hne : ¬keys.findIdx? (fun e => e.id = k.id) = none := by
      rw [List.findIdx?_eq_none_iff]
      intro hall
      simp only [List.mem_map] at hmem
      obtain ⟨e, he, heq⟩ := hmem
      have := hall e he
      simp [heq] at this
    obtain ⟨i, hfi⟩ := Option.ne_none_iff_exists'.mp hne
    obtain ⟨hilt, hfidx⟩ := List.findIdx?_eq_some_iff_findIdx_eq.mp hfi
    subst hfidx
    have hpi : keys[keys.findIdx (fun e => e.id = k.id)].id = k.id := by
      have h2 := @List.findIdx_getElem StoredKey
        (fun e => decide (e.id = k.id)) keys hilt
      simpa using h2
    unfold upsertKeys
    rw [hfi]
    refine ⟨by simp, ?_, ?_⟩
    · rw [List.map_set]
      have hlen2 : keys.findIdx (fun e => e.id = k.id) <
          (keys.map (·.id)).length := by simpa using hilt
      have hget : (keys.map (·.id))[keys.findIdx (fun e => e.id = k.id)] =
          k.id := by
        rw [List.getElem_map]
        exact hpi
      calc (keys.map (·.id)).set (keys.findIdx (fun e => e.id = k.id)) k.id
          = (keys.map (·.id)).set (keys.findIdx (fun e => e.id = k.id))
            ((keys.map (·.id))[keys.findIdx (fun e => e.id = k.id)]) := by
            rw [hget]
        _ = keys.map (·.id) := list_set_getElem_self hlen2
    · exact List.mem_set keys _ hilt _
  · intro hnmem
    have hfi : keys.findIdx? (fun e => e.id = k.id) = none := by
      rw [List.findIdx?_eq_none_iff]
      intro e he
      simp only [decide_eq_false_iff_not]
      intro heq
      exact hnmem (by rw [← heq]; exact List.mem_map_of_mem _ he)
    unfold upsertKeys
    rw [hfi]

theorem upsertKeys_latin1 {now : Int} {keys : List StoredKey} {k : StoredKey}
    (hk : latin1Fields k) (hkeys : ∀ e ∈ keys, latin1Fields e) :
    ∀ e ∈ upsertKeys now keys k, latin1Fields e := by
  intro e he
  unfold upsertKeys at he
  cases hfi : keys.findIdx? (fun e => e.id = k.id) with
  | some i =>
    rw [hfi] at he
    rcases List.mem_or_eq_of_mem_set he with h | h
    · exact hkeys e h
    · subst h
      exact hk
  | none =>
    rw [hfi] at he
    rcases List.mem_append.mp he with h | h
    · exact hkeys e h
    · simp only [List.mem_singleton] at h
      subst h
      exact hk

theorem encryptData_latin1 {mk data : List Nat} (hmk : ∀ c ∈ mk, c < 256)
    (hd : ∀ c ∈ data, c < 256) : ∃ e, encryptData mk data = some e := by
  have hlt := xorStream_mem_lt_256 hmk hd 0
  have hall : (xorStream mk 0 data).all (· < 256) = true := by
    simp only [List.all_eq_true, decide_eq_true_eq]
    exact hlt
  have hb : btoa (xorStream mk 0 data) =
      some (b64encodeCore (xorStream mk 0 data) ++
        b64pad (xorStream mk 0 data).length) := by
    simp [btoa, hall]
  exact ⟨_, by unfold encryptData; rw [hb]⟩

/-- C6 (counterexample): `saveKey` does not always persist a structurally
complete key: with a name containing the code unit 256 the serialized
list cannot be base64-encoded, both codec paths throw, and `saveKey`
returns `false` with the storage unchanged — no upsert happens. -/
theorem saveKey_nonlatin1_persist_failure :
    saveKey 0 (js "K") none ⟨js "a", [256], js "b", js "aes", none, none⟩ =
      (false, none) := by decide

/-- C6 (amended): `saveKey` returns `false` when `id`, `name`, `key` or
`algorithm` is missing (empty); otherwise it upserts by id — an existing
id is replaced in place with `used = now` and no duplicate entry is
created (length and id sequence preserved), a fresh id is appended with
`created`/`used` defaulted — and re-persists the full list through the
vault codec, succeeding whenever the master key and all stored content
are Latin-1; when the serialized list contains a code unit above 255 the
codec throws in both paths and `saveKey` returns `false` leaving storage
unchanged. -/
theorem saveKey_upsert_spec (now : Int) (mk : List Nat)
    (st : Option (List Nat)) (k : StoredKey) :
    ((k.id.isEmpty ∨ k.name.isEmpty ∨ k.key.isEmpty ∨ k.algorithm.isEmpty) →
      saveKey now mk st k = (false, st)) ∧
    (¬(k.id.isEmpty ∨ k.name.isEmpty ∨ k.key.isEmpty ∨ k.algorithm.isEmpty) →
      saveKey now mk st k =
        (match encryptData mk
            (stringifyKeys (upsertKeys now (getAllKeys mk st) k)) with
         | some enc => (true, some enc)
         | none => (false, st)) ∧
      (k.id ∈ (getAllKeys mk st).map (·.id) →
        (upsertKeys now (getAllKeys mk st) k).length =
          (getAllKeys mk st).length ∧
        (upsertKeys now (getAllKeys mk st) k).map (·.id) =
          (getAllKeys mk st).map (·.id) ∧
        { k with used := some now } ∈ upsertKeys now (getAllKeys mk st) k) ∧
      (k.id ∉ (getAllKeys mk st).map (·.id) →
        upsertKeys now (getAllKeys mk st) k =
          getAllKeys mk st ++ [{ k with created := jsOrNow k.created now,
                                        used := jsOrNow k.used now }]) ∧
      ((∀ c ∈ mk, c < 256) → latin1Fields k →
        (∀ e ∈ getAllKeys mk st, latin1Fields e) →
        ∃ enc, saveKey now mk st k = (true, some enc))) := by
  constructor
  · intro h
    unfold saveKey
    rw [if_pos h]
  · intro h
    have hspec := upsertKeys_spec now (getAllKeys mk st) k
    refine ⟨?_, hspec.1, hspec.2, ?_⟩
    · unfold saveKey
      rw [if_neg h]
    · intro hmk hk hall
      obtain ⟨enc, henc⟩ := encryptData_latin1 hmk
        (stringifyKeys_lt (@upsertKeys_latin1 now (getAllKeys mk st) k hk hall))
      refine ⟨enc, ?_⟩
      unfold saveKey
      rw [if_neg h]
      show (match encryptData mk
            (stringifyKeys (upsertKeys now (getAllKeys mk st) k)) with
          | some encrypted => ((true : Bool), some encrypted)
          | none => ((false : Bool), st)) = (true, some enc)
      rw [henc]

/-- Witness for `saveKey_upsert_spec`: saving a Latin-1 key into an empty
vault succeeds. -/
theorem saveKey_upsert_spec_witness :
    ∃ enc, saveKey 5 (js "K") none
      ⟨js "a", js "n", js "k", js "aes", none, none⟩ = (true, some enc) :=
  ((saveKey_upsert_spec 5 (js "K") none
      ⟨js "a", js "n", js "k", js "aes", none, none⟩).2 (by decide)).2.2.2
    (by decide) (by decide) (by decide)

theorem importLoop_counts (fid : Nat → List Nat) (now : Int) (mk : List Nat) :
    ∀ (items : List JValue) (idx imported : Nat) (errors : List (List Nat))
      (st : Option (List Nat)),
      (importLoop fid now mk items idx imported errors st).1 +
        (importLoop fid now mk items idx imported errors st).2.1.length =
        imported + errors.length + items.length ∧
      imported ≤ (importLoop fid now mk items idx imported errors st).1 ∧
      (importLoop fid now mk items idx imported errors st).1 ≤
        imported + (items.filter validateKeyStructure).length := by
  intro items
  induction items with
  | nil =>
    intro idx imp errs st
    simp [importLoop]
  | cons item rest ih =>
    intro idx imp errs st
    by_cases hv : validateKeyStructure item
    · rcases hsk : saveKey now mk st (importEntry fid idx item) with ⟨ok, st2⟩
      cases ok
      · have hstep : importLoop fid now mk (item :: rest) idx imp errs st =
            importLoop fid now mk rest (idx + 1) imp
              (errs ++ [js "Failed to save key: " ++ errName item]) st2 := by
          simp [importLoop, hv, hsk]
        rw [hstep]
        have h := ih (idx + 1) imp
          (errs ++ [js "Failed to save key: " ++ errName item]) st2
        have hf : ((item :: rest).filter validateKeyStructure).length =
            (rest.filter validateKeyStructure).length + 1 := by
          simp [List.filter_cons, hv]
        simp only [List.length_append, List.length_cons, List.length_nil] at h ⊢
        omega
      · have hstep : importLoop fid now mk (item :: rest) idx imp errs st =
            importLoop fid now mk rest (idx + 1) (imp + 1) errs st2 := by
          simp [importLoop, hv, hsk]
        rw [hstep]
        have h := ih (idx + 1) (imp + 1) errs st2
        have hf : ((item :: rest).filter validateKeyStructure).length =
            (rest.filter validateKeyStructure).length + 1 := by
          simp [List.filter_cons, hv]
        simp only [List.length_cons] at h ⊢
        omega
    · have hstep : importLoop fid now mk (item :: rest) idx imp errs st =
          importLoop fid now mk rest (idx + 1) imp
            (errs ++ [js "Invalid key structure: " ++ errName item]) st := by
        simp [importLoop, hv]
      rw [hstep]
      have h := ih (idx + 1) imp
        (errs ++ [js "Invalid key structure: " ++ errName item]) st
      have hf : ((item :: rest).filter validateKeyStructure).length =
          (rest.filter validateKeyStructure).length := by
        simp [List.filter_cons, hv]
      simp only [List.length_append, List.length_cons, List.length_nil] at h ⊢
      omega

set_option maxRecDepth 8192 in
/-- C7 (counterexample): the freshly generated id CAN coincide with the id
the element itself imports — the source never compares them.  When the id generator
(`Date.now().toString() + Math.random().toString(36).substr(2, 9)`)
produces `"X"` for an element that itself carries `id: "X"`, the record
is saved under exactly its imported id. -/
theorem importKeys_generated_id_collision :
    (importKeys (fun _ => js "X") 7 (js "K") none
        (js "[\x7b\"name\":\"a\",\"key\":\"b\",\"algorithm\":\"aes\",\"id\":\"X\"\x7d]")).1 =
      ⟨true, 1, []⟩ ∧
    (getAllKeys (js "K")
        (importKeys (fun _ => js "X") 7 (js "K") none
          (js "[\x7b\"name\":\"a\",\"key\":\"b\",\"algorithm\":\"aes\",\"id\":\"X\"\x7d]")).2).map (·.id) =
      [js "X"] ∧
    jsonParse (js "[\x7b\"name\":\"a\",\"key\":\"b\",\"algorithm\":\"aes\",\"id\":\"X\"\x7d]") =
      some (.jarr [.jobj [(js "name", .jstr (js "a")),
        (js "key", .jstr (js "b")), (js "algorithm", .jstr (js "aes")),
        (js "id", .jstr (js "X"))]]) :=
  ⟨by decide, by decide, by rfl⟩

/-- C7 (amended): `importKeys` parses the data (one fixed error on a parse
failure, one on a non-array), validates each element independently
(object shape, non-blank string `name`/`key`, algorithm in the closed
set), never aborts the batch — each element contributes either to
`imported` or exactly one error message — and returns
`success = (imported > 0)`; each valid element is saved under the
generated id for its position, which replaces but is not checked against
the imported id carried by the element itself. -/
theorem importKeys_batch_spec (fid : Nat → List Nat) (now : Int)
    (mk : List Nat) (st : Option (List Nat)) (data : List Nat) :
    (jsonParse data = none →
      importKeys fid now mk st data =
        (⟨false, 0, [js "Parse error: invalid JSON"]⟩, st)) ∧
    (∀ v, jsonParse data = some v → (∀ items, v ≠ .jarr items) →
      importKeys fid now mk st data =
        (⟨false, 0, [js "Invalid format: expected array of keys"]⟩, st)) ∧
    (∀ items, jsonParse data = some (.jarr items) →
      (importKeys fid now mk st data).1.imported +
        (importKeys fid now mk st data).1.errors.length = items.length ∧
      (importKeys fid now mk st data).1.success =
        decide (0 < (importKeys fid now mk st data).1.imported) ∧
      (importKeys fid now mk st data).1.imported ≤
        (items.filter validateKeyStructure).length) := by
  refine ⟨?_, ?_, ?_⟩
  · intro hp
    unfold importKeys
    rw [hp]
  · intro v hp hna
    unfold importKeys
    rw [hp]
    cases v with
    | jarr items => exact absurd rfl (hna items)
    | jnull => rfl
    | jbool b => rfl
    | jnum n => rfl
    | jstr str => rfl
    | jobj fields => rfl
  · intro items hp
    have hin : importKeys fid now mk st data =
        (⟨decide (0 < (importLoop fid now mk items 0 0 [] st).1),
          (importLoop fid now mk items 0 0 [] st).1,
          (importLoop fid now mk items 0 0 [] st).2.1⟩,
         (importLoop fid now mk items 0 0 [] st).2.2) := by
      unfold importKeys
      rw [hp]
    have hc := importLoop_counts fid now mk items 0 0 [] st
    rw [hin]
    simp only [List.length_nil] at hc
    refine ⟨?_, rfl, ?_⟩ <;> dsimp only <;> omega

/-- Witness for `importKeys_batch_spec`: the batch from the spec test — two valid
records and one invalid record (missing `key`) — yields two imports, one
error, success. -/
theorem importKeys_batch_spec_witness :
    (importKeys (fun n => [65 + n]) 7 (js "K") none
        (js "[\x7b\"name\":\"a\",\"key\":\"b\",\"algorithm\":\"aes\"\x7d,\x7b\"name\":\"c\",\"key\":\"d\",\"algorithm\":\"xor\"\x7d,\x7b\"name\":\"e\"\x7d]")).1.imported +
      (importKeys (fun n => [65 + n]) 7 (js "K") none
        (js "[\x7b\"name\":\"a\",\"key\":\"b\",\"algorithm\":\"aes\"\x7d,\x7b\"name\":\"c\",\"key\":\"d\",\"algorithm\":\"xor\"\x7d,\x7b\"name\":\"e\"\x7d]")).1.errors.length = 3 ∧
    (importKeys (fun n => [65 + n]) 7 (js "K") none
        (js "[\x7b\"name\":\"a\",\"key\":\"b\",\"algorithm\":\"aes\"\x7d,\x7b\"name\":\"c\",\"key\":\"d\",\"algorithm\":\"xor\"\x7d,\x7b\"name\":\"e\"\x7d]")).1.success =
      decide (0 < (importKeys (fun n => [65 + n]) 7 (js "K") none
        (js "[\x7b\"name\":\"a\",\"key\":\"b\",\"algorithm\":\"aes\"\x7d,\x7b\"name\":\"c\",\"key\":\"d\",\"algorithm\":\"xor\"\x7d,\x7b\"name\":\"e\"\x7d]")).1.imported) := by
  have h := (importKeys_batch_spec (fun n => [65 + n]) 7 (js "K") none
    (js "[\x7b\"name\":\"a\",\"key\":\"b\",\"algorithm\":\"aes\"\x7d,\x7b\"name\":\"c\",\"key\":\"d\",\"algorithm\":\"xor\"\x7d,\x7b\"name\":\"e\"\x7d]")).2.2
    _ (by rfl)
  exact ⟨h.1, h.2.1⟩
